import Mathlib

/-!
Shallow embedding of the Gold Nugget Community server (src/server.js):
the Shopify-proxy authentication bridge, the signed session token codec,
the pagination cursor codec and the bucketed timeline reader, with
proofs of the specified properties.

External JavaScript library primitives that the code calls (node crypto
HMAC-SHA256, JSON.parse, Date construction and ISO formatting) are
passed to the embedded definitions as explicit function parameters; the
hypotheses a theorem places on them state exactly the library behaviour
the code relies on (e.g. that parsing inverts printing).  Everything
written by the server itself is embedded concretely.
-/

namespace NuggetDepot

/-! JavaScript helper semantics: String.prototype.split with a
one-character separator, as used by verifySession (token.split("."))
and decodeCursor (raw.split("|")). -/

def jsSplitChar (sep : Char) : List Char → List (List Char)
  | [] => [[]]
  | c :: cs =>
    if c = sep then [] :: jsSplitChar sep cs
    else
      match jsSplitChar sep cs with
      | [] => [[c]]
      | h :: t => (c :: h) :: t

def jsSplit (sep : Char) (s : String) : List String :=
  (jsSplitChar sep s.data).map String.mk

theorem jsSplitChar_ne_nil (sep : Char) (l : List Char) : jsSplitChar sep l ≠ [] := by
  cases l with
  | nil => simp [jsSplitChar]
  | cons c cs =>
    simp only [jsSplitChar]
    by_cases h : c = sep
    · simp [h]
    · simp only [h, if_false]
      cases jsSplitChar sep cs <;> simp

theorem jsSplitChar_of_not_mem (sep : Char) (l : List Char) (h : sep ∉ l) :
    jsSplitChar sep l = [l] := by
  induction l with
  | nil => rfl
  | cons c cs ih =>
    have hc : c ≠ sep := fun hc => h (hc ▸ List.mem_cons_self c cs)
    have hcs : sep ∉ cs := fun hm => h (List.mem_cons_of_mem c hm)
    simp only [jsSplitChar, hc, if_false, ih hcs]

theorem jsSplitChar_append (sep : Char) (a b : List Char) (ha : sep ∉ a) :
    jsSplitChar sep (a ++ sep :: b) = a :: jsSplitChar sep b := by
  induction a with
  | nil => simp [jsSplitChar]
  | cons c cs ih =>
    have hc : c ≠ sep := fun hc => ha (hc ▸ List.mem_cons_self c cs)
    have hcs : sep ∉ cs := fun hm => ha (List.mem_cons_of_mem c hm)
    simp only [List.cons_append, jsSplitChar, hc, if_false, List.append_eq, ih hcs]

theorem jsSplit_two (sep : Char) (a b : String)
    (ha : sep ∉ a.data) (hb : sep ∉ b.data) :
    jsSplit sep (a ++ String.mk [sep] ++ b) = [a, b] := by
  have hdata : (a ++ String.mk [sep] ++ b).data = a.data ++ sep :: b.data := by
    simp [String.data_append]
  simp only [jsSplit, hdata, jsSplitChar_append sep a.data b.data ha,
    jsSplitChar_of_not_mem sep b.data hb, List.map_cons, List.map_nil]

/-! Decimal numerals.  These model JavaScript template interpolation of
an integer and the fragment of Number() semantics the server exercises
(decimal digit strings; Number("") is 0). -/

def decDigitVal (c : Char) : Option Nat :=
  if 48 ≤ c.toNat ∧ c.toNat ≤ 57 then some (c.toNat - 48) else none

def digitsVal : List Char → Option (List Nat)
  | [] => some []
  | c :: cs =>
    match decDigitVal c, digitsVal cs with
    | some d, some ds => some (d :: ds)
    | _, _ => none

def natToDecAux : Nat → Nat → List Char
  | 0, _ => []
  | fuel + 1, n =>
    if n = 0 then []
    else natToDecAux fuel (n / 10) ++ [Char.ofNat (48 + n % 10)]

def natToDec (n : Nat) : String :=
  if n = 0 then "0" else String.mk (natToDecAux n n)

def decToNat (s : String) : Option Nat :=
  match digitsVal s.data with
  | some [] => none
  | some ds => some (Nat.ofDigits 10 ds.reverse)
  | none => none

def jsStrToNat (s : String) : Option Nat :=
  if s = "" then some 0 else decToNat s

theorem digitsVal_map_digit (ds : List Nat) (h : ∀ d ∈ ds, d < 10) :
    digitsVal (ds.map (fun d => Char.ofNat (48 + d))) = some ds := by
  induction ds with
  | nil => rfl
  | cons d rest ih =>
    have hd : d < 10 := h d (List.mem_cons_self d rest)
    have hrest := ih (fun x hx => h x (List.mem_cons_of_mem d hx))
    have hone : decDigitVal (Char.ofNat (48 + d)) = some d := by
      interval_cases d <;> decide
    simp only [List.map_cons, digitsVal, hone, hrest]

theorem natToDecAux_eq_digits (fuel n : Nat) (h : n ≤ fuel) :
    natToDecAux fuel n = (Nat.digits 10 n).reverse.map (fun d => Char.ofNat (48 + d)) := by
  induction fuel generalizing n with
  | zero =>
    have hn : n = 0 := Nat.le_zero.mp h
    subst hn
    simp [natToDecAux]
  | succ fuel ih =>
    by_cases h0 : n = 0
    · subst h0; simp [natToDecAux]
    · have hdiv : n / 10 ≤ fuel := by
        have : n / 10 < n := Nat.div_lt_self (Nat.pos_of_ne_zero h0) (by norm_num)
        omega
      have hdig : Nat.digits 10 n = n % 10 :: Nat.digits 10 (n / 10) :=
        Nat.digits_def' (by norm_num) (Nat.pos_of_ne_zero h0)
      simp only [natToDecAux, h0, if_false, ih (n / 10) hdiv, hdig,
        List.reverse_cons, List.map_append, List.map_cons, List.map_nil]

theorem natToDec_data (n : Nat) (h0 : n ≠ 0) :
    (natToDec n).data = (Nat.digits 10 n).reverse.map (fun d => Char.ofNat (48 + d)) := by
  simp [natToDec, h0, natToDecAux_eq_digits n n (le_refl n)]

theorem decToNat_natToDec (n : Nat) : decToNat (natToDec n) = some n := by
  by_cases h0 : n = 0
  · subst h0; decide
  · have hne : Nat.digits 10 n ≠ [] := Nat.digits_ne_nil_iff_ne_zero.mpr h0
    have hlt : ∀ d ∈ (Nat.digits 10 n).reverse, d < 10 := by
      intro d hd
      exact Nat.digits_lt_base (by norm_num) (List.mem_reverse.mp hd)
    have hdv := digitsVal_map_digit ((Nat.digits 10 n).reverse) hlt
    have hmk : (natToDec n).data = ((Nat.digits 10 n).reverse.map
        (fun d => Char.ofNat (48 + d))) := natToDec_data n h0
    rw [decToNat, hmk, hdv]
    have hrevne : (Nat.digits 10 n).reverse ≠ [] := by
      simpa using hne
    match hmatch : (Nat.digits 10 n).reverse with
    | [] => exact absurd hmatch hrevne
    | d :: ds =>
      simp only []
      rw [← hmatch, List.reverse_reverse, Nat.ofDigits_digits]

theorem natToDec_chars (n : Nat) :
    ∀ c ∈ (natToDec n).data, 48 ≤ c.toNat ∧ c.toNat ≤ 57 := by
  by_cases h0 : n = 0
  · subst h0; decide
  · intro c hc
    have hmk : (natToDec n).data = ((Nat.digits 10 n).reverse.map
        (fun d => Char.ofNat (48 + d))) := natToDec_data n h0
    rw [hmk] at hc
    obtain ⟨d, hd, rfl⟩ := List.mem_map.mp hc
    have hdlt : d < 10 := Nat.digits_lt_base (by norm_num) (List.mem_reverse.mp hd)
    interval_cases d <;> decide

theorem natToDec_ne_empty (n : Nat) : natToDec n ≠ "" := by
  by_cases h0 : n = 0
  · subst h0; decide
  · intro hcontra
    have hne : Nat.digits 10 n ≠ [] := Nat.digits_ne_nil_iff_ne_zero.mpr h0
    have hdata : (natToDec n).data = [] := by rw [hcontra]
    have hmk : (natToDec n).data = ((Nat.digits 10 n).reverse.map
        (fun d => Char.ofNat (48 + d))) := natToDec_data n h0
    rw [hmk] at hdata
    simp only [List.map_eq_nil_iff, List.reverse_eq_nil_iff] at hdata
    exact hne hdata

theorem jsStrToNat_natToDec (n : Nat) : jsStrToNat (natToDec n) = some n := by
  rw [jsStrToNat, if_neg (natToDec_ne_empty n), decToNat_natToDec]

/-! Base64url.  b64urlEncode in the source produces standard base64 of
the UTF-8 bytes and then maps + to -, / to _ and strips = padding; the
composite alphabet is embedded directly.  b64urlDecodeToString models
Buffer.from(s, "base64") (which skips characters outside the alphabet)
followed by utf8 stringification. -/

def b64Chars : List Char :=
  ['A', 'B', 'C', 'D', 'E', 'F', 'G', 'H', 'I', 'J', 'K', 'L', 'M',
   'N', 'O', 'P', 'Q', 'R', 'S', 'T', 'U', 'V', 'W', 'X', 'Y', 'Z',
   'a', 'b', 'c', 'd', 'e', 'f', 'g', 'h', 'i', 'j', 'k', 'l', 'm',
   'n', 'o', 'p', 'q', 'r', 's', 't', 'u', 'v', 'w', 'x', 'y', 'z',
   '0', '1', '2', '3', '4', '5', '6', '7', '8', '9', '-', '_']

def sextetChar (n : Nat) : Char := b64Chars.getD n 'A'

def idxOfAux (c : Char) : List Char → Nat → Option Nat
  | [], _ => none
  | x :: xs, i => if x = c then some i else idxOfAux c xs (i + 1)

def sextetVal (c : Char) : Option Nat := idxOfAux c b64Chars 0

def encodeB64Bytes : List Nat → List Char
  | [] => []
  | [a] => [sextetChar (a / 4), sextetChar (a % 4 * 16)]
  | [a, b] => [sextetChar (a / 4), sextetChar (a % 4 * 16 + b / 16),
               sextetChar (b % 16 * 4)]
  | a :: b :: c :: rest =>
      sextetChar (a / 4) :: sextetChar (a % 4 * 16 + b / 16) ::
      sextetChar (b % 16 * 4 + c / 64) :: sextetChar (c % 64) ::
      encodeB64Bytes rest

def sextetsToBytes : List Nat → List Nat
  | [] => []
  | [_] => []
  | [s0, s1] => [s0 * 4 + s1 / 16]
  | [s0, s1, s2] => [s0 * 4 + s1 / 16, s1 % 16 * 16 + s2 / 4]
  | s0 :: s1 :: s2 :: s3 :: rest =>
      (s0 * 4 + s1 / 16) :: (s1 % 16 * 16 + s2 / 4) :: (s2 % 4 * 64 + s3) ::
      sextetsToBytes rest

def b64urlEncode (s : String) : String :=
  String.mk (encodeB64Bytes (s.data.map Char.toNat))

def b64urlDecodeToString (s : String) : String :=
  String.mk ((sextetsToBytes (s.data.filterMap sextetVal)).map Char.ofNat)

theorem sextet_inv : ∀ n, n < 64 → sextetVal (sextetChar n) = some n := by decide

theorem sextetChar_mem : ∀ n, n < 64 → sextetChar n ∈ b64Chars := by decide

theorem encodeB64Bytes_roundtrip : ∀ (bs : List Nat), (∀ b ∈ bs, b < 256) →
    sextetsToBytes ((encodeB64Bytes bs).filterMap sextetVal) = bs
  | [], _ => by simp [encodeB64Bytes, sextetsToBytes]
  | [a], h => by
    have ha : a < 256 := h a (by simp)
    simp only [encodeB64Bytes, List.filterMap_cons,
      sextet_inv (a / 4) (by omega), sextet_inv (a % 4 * 16) (by omega),
      List.filterMap_nil]
    simp only [sextetsToBytes, List.cons.injEq, and_true]
    omega
  | [a, b], h => by
    have ha : a < 256 := h a (by simp)
    have hb : b < 256 := h b (by simp)
    simp only [encodeB64Bytes, List.filterMap_cons,
      sextet_inv (a / 4) (by omega), sextet_inv (a % 4 * 16 + b / 16) (by omega),
      sextet_inv (b % 16 * 4) (by omega), List.filterMap_nil]
    simp only [sextetsToBytes, List.cons.injEq, and_true]
    constructor <;> omega
  | a :: b :: c :: rest, h => by
    have ha : a < 256 := h a (by simp)
    have hb : b < 256 := h b (by simp)
    have hc : c < 256 := h c (by simp)
    have ih := encodeB64Bytes_roundtrip rest
      (fun x hx => h x (by simp [hx]))
    simp only [encodeB64Bytes, List.filterMap_cons,
      sextet_inv (a / 4) (by omega), sextet_inv (a % 4 * 16 + b / 16) (by omega),
      sextet_inv (b % 16 * 4 + c / 64) (by omega), sextet_inv (c % 64) (by omega)]
    simp only [sextetsToBytes, List.cons.injEq]
    refine ⟨by omega, by omega, by omega, ih⟩

theorem encodeB64Bytes_mem : ∀ (bs : List Nat), (∀ b ∈ bs, b < 256) →
    ∀ ch ∈ encodeB64Bytes bs, ch ∈ b64Chars
  | [], _ => by simp [encodeB64Bytes]
  | [a], h => by
    have ha : a < 256 := h a (by simp)
    intro ch hch
    simp only [encodeB64Bytes, List.mem_cons, List.not_mem_nil, or_false] at hch
    rcases hch with rfl | rfl
    · exact sextetChar_mem _ (by omega)
    · exact sextetChar_mem _ (by omega)
  | [a, b], h => by
    have ha : a < 256 := h a (by simp)
    have hb : b < 256 := h b (by simp)
    intro ch hch
    simp only [encodeB64Bytes, List.mem_cons, List.not_mem_nil, or_false] at hch
    rcases hch with rfl | rfl | rfl
    · exact sextetChar_mem _ (by omega)
    · exact sextetChar_mem _ (by omega)
    · exact sextetChar_mem _ (by omega)
  | a :: b :: c :: rest, h => by
    have ha : a < 256 := h a (by simp)
    have hb : b < 256 := h b (by simp)
    have hc : c < 256 := h c (by simp)
    have ih := encodeB64Bytes_mem rest (fun x hx => h x (by simp [hx]))
    intro ch hch
    simp only [encodeB64Bytes, List.mem_cons] at hch
    rcases hch with rfl | rfl | rfl | rfl | hm
    · exact sextetChar_mem _ (by omega)
    · exact sextetChar_mem _ (by omega)
    · exact sextetChar_mem _ (by omega)
    · exact sextetChar_mem _ (by omega)
    · exact ih ch hm

theorem b64url_roundtrip (s : String) (h : ∀ c ∈ s.data, c.toNat < 256) :
    b64urlDecodeToString (b64urlEncode s) = s := by
  have hbytes : ∀ b ∈ s.data.map Char.toNat, b < 256 := by
    intro b hb
    obtain ⟨c, hc, rfl⟩ := List.mem_map.mp hb
    exact h c hc
  rw [b64urlDecodeToString, b64urlEncode]
  show String.mk ((sextetsToBytes ((encodeB64Bytes (s.data.map Char.toNat)).filterMap
      sextetVal)).map Char.ofNat) = s
  rw [encodeB64Bytes_roundtrip _ hbytes, List.map_map]
  have : (Char.ofNat ∘ Char.toNat) = id := by
    funext c
    exact Char.ofNat_toNat c
  rw [this, List.map_id]

theorem b64urlEncode_chars (s : String) (h : ∀ c ∈ s.data, c.toNat < 256) :
    ∀ ch ∈ (b64urlEncode s).data, ch ∈ b64Chars := by
  intro ch hch
  have hbytes : ∀ b ∈ s.data.map Char.toNat, b < 256 := by
    intro b hb
    obtain ⟨c, hc, rfl⟩ := List.mem_map.mp hb
    exact h c hc
  exact encodeB64Bytes_mem _ hbytes ch hch

theorem b64urlEncode_ne_empty (s : String) (hne : s.data ≠ []) :
    b64urlEncode s ≠ "" := by
  intro hcontra
  have hdata : (b64urlEncode s).data = [] := by rw [hcontra]
  rw [b64urlEncode] at hdata
  match hmatch : s.data.map Char.toNat with
  | [] => exact hne (List.map_eq_nil_iff.mp hmatch)
  | [a] => rw [hmatch] at hdata; simp [encodeB64Bytes] at hdata
  | [a, b] => rw [hmatch] at hdata; simp [encodeB64Bytes] at hdata
  | a :: b :: c :: rest => rw [hmatch] at hdata; simp [encodeB64Bytes] at hdata

/-! JavaScript whitespace trimming (String.prototype.trim on the
characters this server can meet). -/

def isJsWs (c : Char) : Bool :=
  c == ' ' || c == '\t' || c == '\n' || c == '\r' || c == '\x0b' || c == '\x0c'

def jsTrim (s : String) : String :=
  String.mk (((s.data.dropWhile isJsWs).reverse.dropWhile isJsWs).reverse)

/-! JSON values and JSON.stringify.  Numbers are modelled as integers:
every number this server serializes (exp timestamps) is integral.
JSON.parse is an external library call and stays a parameter. -/

inductive JValue where
  | jnull
  | jbool (b : Bool)
  | jnum (n : Int)
  | jstr (s : String)
  | jarr (items : List JValue)
  | jobj (fields : List (String × JValue))

def intToDec (i : Int) : String :=
  if i < 0 then "-" ++ natToDec i.natAbs else natToDec i.natAbs

def hexDigitChar (n : Nat) : Char :=
  if n < 10 then Char.ofNat (48 + n) else Char.ofNat (87 + n)

def escapeJsonChar (c : Char) : List Char :=
  if c = '"' then ['\\', '"']
  else if c = '\\' then ['\\', '\\']
  else if c = '\x08' then ['\\', 'b']
  else if c = '\x0c' then ['\\', 'f']
  else if c = '\n' then ['\\', 'n']
  else if c = '\r' then ['\\', 'r']
  else if c = '\t' then ['\\', 't']
  else if c.toNat < 32 then
    ['\\', 'u', '0', '0', hexDigitChar (c.toNat / 16), hexDigitChar (c.toNat % 16)]
  else [c]

def jstrLit (s : String) : String :=
  "\"" ++ String.mk (s.data.map escapeJsonChar).flatten ++ "\""

mutual

def jsonStringify : JValue → String
  | .jnull => "null"
  | .jbool true => "true"
  | .jbool false => "false"
  | .jnum n => intToDec n
  | .jstr s => jstrLit s
  | .jarr items => "[" ++ stringifyArr items ++ "]"
  | .jobj fields => "\x7b" ++ stringifyObj fields ++ "\x7d"

def stringifyArr : List JValue → String
  | [] => ""
  | [v] => jsonStringify v
  | v :: rest => jsonStringify v ++ "," ++ stringifyArr rest

def stringifyObj : List (String × JValue) → String
  | [] => ""
  | [(k, v)] => jstrLit k ++ ":" ++ jsonStringify v
  | (k, v) :: rest => jstrLit k ++ ":" ++ jsonStringify v ++ "," ++ stringifyObj rest

end

/-! JavaScript value coercions on parsed JSON values: truthiness,
property access, typeof-object test and Number().  Number() of an array
or object goes through toString and is not exercised by this server;
it is mapped to NaN (none). -/

def jTruthy : JValue → Bool
  | .jnull => false
  | .jbool b => b
  | .jnum n => n != 0
  | .jstr s => s != ""
  | .jarr _ => true
  | .jobj _ => true

def jGet (v : JValue) (k : String) : Option JValue :=
  match v with
  | .jobj fields => fields.lookup k
  | _ => none

def jObjGate : JValue → Bool
  | .jarr _ => true
  | .jobj _ => true
  | _ => false

def jsStrToInt (s : String) : Option Int :=
  let t := jsTrim s
  if t = "" then some 0
  else
    match t.data with
    | '-' :: rest => (decToNat (String.mk rest)).map (fun n => -(n : Int))
    | _ => (decToNat t).map (fun n => (n : Int))

def jToNumber : JValue → Option Int
  | .jnull => some 0
  | .jbool b => some (if b then 1 else 0)
  | .jnum n => some n
  | .jstr s => jsStrToInt s
  | .jarr _ => none
  | .jobj _ => none

/-! The signed session token codec (signSession / verifySession).
The HMAC-SHA256 hex digest and JSON.parse are external primitives,
passed as parameters hmac and jsonParse.  Buffer length equality plus
crypto.timingSafeEqual on UTF-8 buffers holds exactly when the two
strings are equal, so the MAC comparison is string equality.  now is
Date.now() in epoch milliseconds. -/

def Hmac : Type := String → String → String

def JsonParse : Type := String → Option JValue

def signSession (hmac : Hmac) (secret : String) (payloadObj : JValue) : String :=
  let json := jsonStringify payloadObj
  let data := b64urlEncode json
  data ++ "." ++ hmac secret data

def checkFields (obj : JValue) : Bool :=
  (match jGet obj "customer_id" with | some (.jstr s) => s != "" | _ => false) &&
  (match jGet obj "shop" with | some (.jstr s) => s != "" | _ => false) &&
  (match jGet obj "path_prefix" with | some (.jstr s) => s != "" | _ => false)

def expRejected (now : Int) (obj : JValue) : Bool :=
  match jGet obj "exp" with
  | none => false
  | some e =>
    jTruthy e && (match jToNumber e with
                  | some m => decide (now > m)
                  | none => false)

def verifySession (hmac : Hmac) (jsonParse : JsonParse) (secret : String)
    (now : Int) (token : Option String) : Option JValue :=
  if secret = "" then none
  else
    match token with
    | none => none
    | some t =>
      if t = "" then none
      else
        match jsSplit '.' t with
        | [data, mac] =>
          if hmac secret data ≠ mac then none
          else
            match jsonParse (b64urlDecodeToString data) with
            | none => none
            | some obj =>
              if jObjGate obj then
                if checkFields obj then
                  if expRejected now obj then none else some obj
                else none
              else none
        | _ => none

/-! setAuthCookie.  The Set-Cookie header percent-encodes the token via
encodeURIComponent, which leaves the token's character set (base64url
alphabet, hex digits, one dot) unchanged, so the token is stored as-is. -/

def sevenDaysMs : Int := 7 * 24 * 60 * 60 * 1000

structure SetCookie where
  name : String
  token : String
  attrs : List String

def setAuthCookie (hmac : Hmac) (secret : String) (now : Int)
    (customerId shop pathPfx : String) : SetCookie :=
  { name := "nd_auth"
  , token := signSession hmac secret (.jobj
      [("customer_id", .jstr customerId), ("shop", .jstr shop),
       ("path_prefix", .jstr pathPfx), ("exp", .jnum (now + sevenDaysMs))])
  , attrs := ["Path=/proxy", "HttpOnly", "SameSite=Lax", "Secure", "Max-Age=604800"] }

/-! decodeURIComponent, modelled as an Option: none is a thrown
URIError (malformed percent escape or invalid UTF-8 byte run). -/

def hexVal (c : Char) : Option Nat :=
  if 48 ≤ c.toNat ∧ c.toNat ≤ 57 then some (c.toNat - 48)
  else if 65 ≤ c.toNat ∧ c.toNat ≤ 70 then some (c.toNat - 55)
  else if 97 ≤ c.toNat ∧ c.toNat ≤ 102 then some (c.toNat - 87)
  else none

inductive PctTok where
  | byte (b : Nat)
  | chr (c : Char)

def pctTokens : List Char → Option (List PctTok)
  | [] => some []
  | c :: rest =>
    if c = '%' then
      match rest with
      | h1 :: h2 :: rest2 =>
        match hexVal h1, hexVal h2 with
        | some a, some b => (pctTokens rest2).map (fun ts => PctTok.byte (a * 16 + b) :: ts)
        | _, _ => none
      | _ => none
    else (pctTokens rest).map (fun ts => PctTok.chr c :: ts)

def contByte (b : Nat) : Bool := decide (128 ≤ b ∧ b ≤ 191)

def utf8Tokens : List PctTok → Option (List Char)
  | [] => some []
  | .chr c :: rest => (utf8Tokens rest).map (fun cs => c :: cs)
  | .byte b :: rest =>
    if b < 128 then (utf8Tokens rest).map (fun cs => Char.ofNat b :: cs)
    else if 194 ≤ b ∧ b ≤ 223 then
      match rest with
      | .byte b2 :: rest2 =>
        if contByte b2 then
          (utf8Tokens rest2).map (fun cs => Char.ofNat ((b - 192) * 64 + (b2 - 128)) :: cs)
        else none
      | _ => none
    else if 224 ≤ b ∧ b ≤ 239 then
      match rest with
      | .byte b2 :: .byte b3 :: rest2 =>
        if contByte b2 && contByte b3 then
          (utf8Tokens rest2).map (fun cs =>
            Char.ofNat ((b - 224) * 4096 + (b2 - 128) * 64 + (b3 - 128)) :: cs)
        else none
      | _ => none
    else if 240 ≤ b ∧ b ≤ 244 then
      match rest with
      | .byte b2 :: .byte b3 :: .byte b4 :: rest2 =>
        if contByte b2 && contByte b3 && contByte b4 then
          (utf8Tokens rest2).map (fun cs =>
            Char.ofNat ((b - 240) * 262144 + (b2 - 128) * 4096 +
              (b3 - 128) * 64 + (b4 - 128)) :: cs)
        else none
      | _ => none
    else none

def decodeUriComp (s : String) : Option String :=
  match pctTokens s.data with
  | none => none
  | some ts => (utf8Tokens ts).map String.mk

/-! parseCookies.  The result is none when the header makes
decodeURIComponent throw (the exception escapes parseCookies), and the
cookie map (as an association list, later assignment winning) otherwise. -/

def splitFirstEq : List Char → Option (List Char × List Char)
  | [] => none
  | c :: rest =>
    if c = '=' then some ([], rest)
    else (splitFirstEq rest).map (fun pr => (c :: pr.1, pr.2))

def parseCookiePart (part : String) : Option (Option (String × String)) :=
  match splitFirstEq part.data with
  | none => some none
  | some (kChars, vChars) =>
    let k := jsTrim (String.mk kChars)
    let v := jsTrim (String.mk vChars)
    if k = "" then some none
    else
      match decodeUriComp v with
      | some d => some (some (k, d))
      | none => none

def collectCookies : List String → Option (List (String × String))
  | [] => some []
  | p :: ps =>
    match parseCookiePart p with
    | none => none
    | some none => collectCookies ps
    | some (some kv) => (collectCookies ps).map (fun rest => kv :: rest)

def parseCookies (header : String) : Option (List (String × String)) :=
  collectCookies (jsSplit ';' header)

def cookieGet (cookies : List (String × String)) (k : String) : Option String :=
  ((cookies.filter (fun kv => kv.1 == k)).getLast?).map (fun kv => kv.2)

/-! Shopify proxy verification.  Express query values are strings or
arrays of strings; Object.keys(...).sort() sorts keys lexicographically. -/

inductive QVal where
  | qstr (s : String)
  | qarr (l : List String)

structure Request where
  query : List (String × QVal)
  cookieHeader : String

def qLookup (q : List (String × QVal)) (k : String) : Option QVal :=
  q.lookup k

def qStr (q : List (String × QVal)) (k : String) : String :=
  match qLookup q k with
  | some (.qstr s) => s
  | _ => ""

def joinComma : List String → String
  | [] => ""
  | [x] => x
  | x :: rest => x ++ "," ++ joinComma rest

def qValStr : QVal → String
  | .qstr s => s
  | .qarr l => joinComma l

def strLeChars : List Char → List Char → Bool
  | [], _ => true
  | _ :: _, [] => false
  | a :: as, b :: bs =>
    if a.toNat < b.toNat then true
    else if b.toNat < a.toNat then false
    else strLeChars as bs

def jsStrLe (a b : String) : Bool := strLeChars a.data b.data

def insertSortedKey (kv : String × QVal) :
    List (String × QVal) → List (String × QVal)
  | [] => [kv]
  | x :: xs => if jsStrLe kv.1 x.1 then kv :: x :: xs else x :: insertSortedKey kv xs

def sortByKey (q : List (String × QVal)) : List (String × QVal) :=
  q.foldr insertSortedKey []

def buildProxyMessage (query : List (String × QVal)) : String :=
  ((sortByKey query).map (fun kv => kv.1 ++ "=" ++ qValStr kv.2)).foldl (· ++ ·) ""

def verifyShopifyProxy (hmac : Hmac) (secret : String)
    (query : List (String × QVal)) : Bool :=
  if secret = "" then false
  else
    let signature := match qLookup query "signature" with
                     | some (.qstr s) => s
                     | _ => ""
    if signature = "" then false
    else
      let message := buildProxyMessage (query.filter (fun kv => kv.1 != "signature"))
      let digest := hmac secret message
      digest == signature

/-! requireProxyAuth, the auth middleware mounted on the /proxy router.
The thrown outcome is parseCookies propagating a URIError (express then
responds 500 outside this function). -/

inductive AuthResult where
  | missingSecret
  | proceed (cookie : Option SetCookie)
  | rejectedPage
  | thrown

def requireProxyAuth (hmac : Hmac) (jsonParse : JsonParse) (secret : String)
    (now : Int) (req : Request) : AuthResult :=
  if secret = "" then .missingSecret
  else if verifyShopifyProxy hmac secret req.query then
    let shop := qStr req.query "shop"
    let customerId := qStr req.query "logged_in_customer_id"
    let pathPfx := match qLookup req.query "path_prefix" with
                   | some (.qstr s) => s
                   | _ => "/apps/nuggetdepot"
    if shop ≠ "" ∧ customerId ≠ "" ∧ pathPfx ≠ "" then
      .proceed (some (setAuthCookie hmac secret now customerId shop pathPfx))
    else .proceed none
  else
    match parseCookies req.cookieHeader with
    | none => .thrown
    | some cookies =>
      match verifySession hmac jsonParse secret now (cookieGet cookies "nd_auth") with
      | some _ => .proceed none
      | none => .rejectedPage

def getViewerCustomerId (hmac : Hmac) (jsonParse : JsonParse) (secret : String)
    (now : Int) (req : Request) : Option String :=
  let q := qStr req.query "logged_in_customer_id"
  if q ≠ "" then some q
  else
    match parseCookies req.cookieHeader with
    | none => none
    | some cookies =>
      match verifySession hmac jsonParse secret now (cookieGet cookies "nd_auth") with
      | some obj => some (match jGet obj "customer_id" with
                          | some (.jstr s) => s
                          | _ => "")
      | none => some ""

/-! Relational store.  Timestamps (TIMESTAMPTZ) are epoch milliseconds;
pg returns them as Date objects, which new Date(x).toISOString() turns
into a string — that library pair is passed as parameters toISO /
parseISO where needed.  posts_v1.id is BIGSERIAL (ids start at 1);
likes_v1 has PRIMARY KEY (post_id, customer_id); post_media_v1 has
PRIMARY KEY (post_id, idx) with non-null media_bytes. -/

structure PostRow where
  id : Nat
  shop : String
  customer_id : String
  body : String
  bucket : String
  created_at : Nat
  media_bytes : Option (List Nat) := none
  media_mime : String := ""
deriving DecidableEq

structure MediaRow where
  post_id : Nat
  idx : Nat
  media_bytes : List Nat
  media_mime : String
deriving DecidableEq

structure LikeRow where
  shop : String
  post_id : Nat
  customer_id : String
deriving DecidableEq

structure CommentRow where
  id : Nat
  shop : String
  post_id : Nat
  customer_id : String
  body : String
  created_at : Nat
deriving DecidableEq

structure Store where
  posts : List PostRow
  media : List MediaRow
  likes : List LikeRow
  comments : List CommentRow
  nextPostId : Nat
deriving DecidableEq

def jsToLowerCase (s : String) : String :=
  String.mk (s.data.map Char.toLower)

def normalizeBucket (x : String) : String :=
  let v := jsTrim (jsToLowerCase x)
  if v = "collection" ∨ v = "collections" then "collection"
  else if v = "trade" ∨ v = "trades" then "trades"
  else "feed"

/-! Pagination cursor codec.  encodeCursor is called with a row's
created_at (a non-null pg Date, hence always truthy) and id, so the
falsy guard reduces to id = 0; toISO models
new Date(createdAt).toISOString() and parseISO models parsing an ISO
string back through new Date(iso).getTime(). -/

structure Cursor where
  createdAt : Nat
  id : Nat
deriving DecidableEq

def encodeCursor (toISO : Nat → String) (createdAt : Nat) (id : Nat) : String :=
  if id = 0 then ""
  else b64urlEncode (toISO createdAt ++ "|" ++ natToDec id)

def decodeCursor (parseISO : String → Option Nat) (cursor : String) : Option Cursor :=
  if cursor = "" then none
  else
    let raw := b64urlDecodeToString cursor
    match jsSplit '|' raw with
    | iso :: idStr :: _ =>
      match parseISO iso, jsStrToNat idStr with
      | some t, some id => some ⟨t, id⟩
      | _, _ => none
    | _ => none

/-! The bucketed timeline reader listBucketPostsWithMeta and its batch
enrichment getPostsMeta (like counts, the viewer's own like membership,
comment counts).  The SQL ORDER BY created_at DESC, id DESC over rows
with pairwise-distinct (created_at, id) keys is a deterministic
descending sort, rendered here as an insertion sort. -/

def postKey (p : PostRow) : Nat × Nat := (p.created_at, p.id)

def keyLt (a b : Nat × Nat) : Bool :=
  decide (a.1 < b.1) || (decide (a.1 = b.1) && decide (a.2 < b.2))

def insertDesc (p : PostRow) : List PostRow → List PostRow
  | [] => [p]
  | q :: rest =>
    if keyLt (postKey p) (postKey q) then q :: insertDesc p rest
    else p :: q :: rest

def sortDesc (l : List PostRow) : List PostRow := l.foldr insertDesc []

structure EnrichedPost where
  row : PostRow
  like_count : Nat
  viewer_liked : Bool
  comment_count : Nat
deriving DecidableEq

structure FeedPage where
  posts : List EnrichedPost
  nextCursor : String
deriving DecidableEq

def enrichPost (store : Store) (viewer : String) (p : PostRow) : EnrichedPost :=
  { row := p
  , like_count := (store.likes.filter (fun l => l.post_id == p.id)).length
  , viewer_liked := viewer != "" &&
      store.likes.any (fun l => l.post_id == p.id && l.customer_id == viewer)
  , comment_count := (store.comments.filter (fun c => c.post_id == p.id)).length }

def bucketCursorPred (cursor : Option Cursor) (p : PostRow) : Bool :=
  match cursor with
  | some c => if c.id ≠ 0 then keyLt (postKey p) (c.createdAt, c.id) else true
  | none => true

def listBucketPostsWithMeta (toISO : Nat → String) (db : Option Store)
    (shop : String) (viewer : String) (bucket : String) (limit : Nat)
    (cursor : Option Cursor) : FeedPage :=
  match db with
  | none => ⟨[], ""⟩
  | some store =>
    let b := normalizeBucket bucket
    let rows := sortDesc (store.posts.filter (fun p =>
      p.shop == shop && p.bucket == b && bucketCursorPred cursor p))
    let posts := rows.take limit
    let nextCursor :=
      if posts.length = limit then
        match posts.getLast? with
        | some lastP => encodeCursor toISO lastP.created_at lastP.id
        | none => ""
      else ""
    ⟨posts.map (enrichPost store viewer), nextCursor⟩

/-! createPost: INSERT with bucket normalized at the write boundary,
id drawn from the BIGSERIAL sequence, created_at defaulted to NOW(). -/

def createPost (db : Option Store) (now : Nat)
    (shop customerId body bucket : String) : Option (Store × Nat) :=
  match db with
  | none => none
  | some store =>
    let b := normalizeBucket bucket
    let row : PostRow :=
      { id := store.nextPostId, shop := shop, customer_id := customerId,
        body := body, bucket := b, created_at := now }
    let store2 : Store :=
      { store with posts := store.posts ++ [row], nextPostId := store.nextPostId + 1 }
    some (store2, store.nextPostId)

/-! toggleLike: try INSERT; a conflict on the (post_id, customer_id)
primary key raises, and the catch branch runs the DELETE instead. -/

def likeMatches (postId : Nat) (customerId : String) (l : LikeRow) : Bool :=
  l.post_id == postId && l.customer_id == customerId

def toggleLikeCore (store : Store) (shop : String) (postId : Nat)
    (customerId : String) : Store × Bool :=
  if store.likes.any (likeMatches postId customerId) then
    ({ store with likes := store.likes.filter (fun l => !likeMatches postId customerId l) },
     false)
  else
    ({ store with likes := store.likes ++ [⟨shop, postId, customerId⟩] }, true)

def toggleLike (db : Option Store) (shop : String) (postId : Nat)
    (customerId : String) : Option (Store × Bool) :=
  match db with
  | none => none
  | some store => some (toggleLikeCore store shop postId customerId)

def likedIn (store : Store) (postId : Nat) (customerId : String) : Bool :=
  store.likes.any (likeMatches postId customerId)

def likePairCount (store : Store) (postId : Nat) (customerId : String) : Nat :=
  (store.likes.filter (likeMatches postId customerId)).length

def iterToggle (shop : String) (postId : Nat) (customerId : String) :
    Nat → Store → Store
  | 0, store => store
  | n + 1, store => iterToggle shop postId customerId n
      (toggleLikeCore store shop postId customerId).1

/-! getPostMediaRow and the /posts/:id/media/:idx handler.  A Buffer is
truthy even when empty, so the media_bytes truthiness test is just
non-null; the mime truthiness test is non-empty. -/

def getPostMediaRow (db : Option Store) (postId : Nat) (idx : Int) :
    Option (List Nat × String) :=
  match db with
  | none => none
  | some store =>
    if idx < 0 then none
    else
      let primary :=
        match store.media.find? (fun m => m.post_id == postId && (m.idx : Int) == idx) with
        | some m => if m.media_mime ≠ "" then some (m.media_bytes, m.media_mime) else none
        | none => none
      match primary with
      | some r => some r
      | none =>
        if idx = 0 then
          match store.posts.find? (fun p => p.id == postId) with
          | some p =>
            match p.media_bytes with
            | some bts => if p.media_mime ≠ "" then some (bts, p.media_mime) else none
            | none => none
          | none => none
        else none

structure HttpResponse where
  status : Nat
  body : String
deriving DecidableEq

def postMediaHandler (hmac : Hmac) (jsonParse : JsonParse) (secret : String)
    (now : Int) (db : Option Store) (req : Request)
    (idParam idxParam : String) : Option HttpResponse :=
  match getViewerCustomerId hmac jsonParse secret now req with
  | none => none
  | some viewer =>
    if viewer = "" then some ⟨200, "Not logged in"⟩
    else
      match db with
      | none => some ⟨200, "DB not configured"⟩
      | some store =>
        match jsStrToNat idParam, jsStrToNat idxParam with
        | some id, some idx =>
          match getPostMediaRow (some store) id (Int.ofNat idx) with
          | some m => some ⟨200, m.2⟩
          | none => some ⟨404, "Not found"⟩
        | _, _ => some ⟨404, "Not found"⟩

def postMediaEndpoint (hmac : Hmac) (jsonParse : JsonParse) (secret : String)
    (now : Int) (db : Option Store) (req : Request)
    (idParam idxParam : String) : Option HttpResponse :=
  match requireProxyAuth hmac jsonParse secret now req with
  | .missingSecret => some ⟨200, "Missing SHOPIFY_API_SECRET"⟩
  | .rejectedPage => some ⟨200, "Invalid proxy signature."⟩
  | .thrown => none
  | .proceed _ => postMediaHandler hmac jsonParse secret now db req idParam idxParam

/-! Following nextCursor page by page, the way /feed/more and
/bucket/more thread the opaque cursor string back through decodeCursor.
Fuel bounds the number of requests; the returned string is the final
page's nextCursor. -/

def runPages (toISO : Nat → String) (parseISO : String → Option Nat)
    (db : Option Store) (shop viewer bucket : String) (limit : Nat) :
    Nat → String → List EnrichedPost × String
  | 0, cs => ([], cs)
  | fuel + 1, cs =>
    let page := listBucketPostsWithMeta toISO db shop viewer bucket limit
      (decodeCursor parseISO cs)
    if page.nextCursor = "" then (page.posts, "")
    else
      let rest := runPages toISO parseISO db shop viewer bucket limit fuel page.nextCursor
      (page.posts ++ rest.1, rest.2)

/-! Order lemmas for the (created_at DESC, id DESC) sort key. -/

theorem keyLt_irrefl (a : Nat × Nat) : keyLt a a = false := by
  simp [keyLt]

theorem keyLt_asymm (a b : Nat × Nat) (h : keyLt a b = true) : keyLt b a = false := by
  simp only [keyLt, Bool.or_eq_true, Bool.and_eq_true, decide_eq_true_eq] at h
  simp only [keyLt, Bool.or_eq_false_iff, Bool.and_eq_false_iff,
    decide_eq_false_iff_not]
  omega

theorem keyLt_trans (a b c : Nat × Nat) (hab : keyLt a b = true)
    (hbc : keyLt b c = true) : keyLt a c = true := by
  simp only [keyLt, Bool.or_eq_true, Bool.and_eq_true, decide_eq_true_eq] at *
  omega

theorem mem_insertDesc (p x : PostRow) (l : List PostRow) :
    x ∈ insertDesc p l ↔ x = p ∨ x ∈ l := by
  induction l with
  | nil => simp [insertDesc]
  | cons q rest ih =>
    simp only [insertDesc]
    by_cases h : keyLt (postKey p) (postKey q) = true
    · rw [if_pos h]
      simp only [List.mem_cons, ih]
      tauto
    · rw [if_neg h]
      simp only [List.mem_cons]

theorem mem_sortDesc (x : PostRow) (l : List PostRow) :
    x ∈ sortDesc l ↔ x ∈ l := by
  induction l with
  | nil => simp [sortDesc]
  | cons q rest ih =>
    show x ∈ insertDesc q (sortDesc rest) ↔ _
    rw [mem_insertDesc, ih]
    simp

theorem insertDesc_last (p : PostRow) (l : List PostRow)
    (h : ∀ q ∈ l, keyLt (postKey p) (postKey q) = true) :
    insertDesc p l = l ++ [p] := by
  induction l with
  | nil => rfl
  | cons q rest ih =>
    have hq : keyLt (postKey p) (postKey q) = true := h q (List.mem_cons_self q rest)
    simp only [insertDesc, hq, if_true, List.cons_append,
      ih (fun x hx => h x (List.mem_cons_of_mem q hx))]

theorem sortDesc_strictAsc (l : List PostRow)
    (h : l.Pairwise (fun a b => keyLt (postKey a) (postKey b) = true)) :
    sortDesc l = l.reverse := by
  induction l with
  | nil => rfl
  | cons x xs ih =>
    have hx : ∀ y ∈ xs, keyLt (postKey x) (postKey y) = true :=
      (List.pairwise_cons.mp h).1
    have hxs := (List.pairwise_cons.mp h).2
    show insertDesc x (sortDesc xs) = _
    rw [ih hxs, insertDesc_last x xs.reverse
      (fun y hy => hx y (List.mem_reverse.mp hy)), List.reverse_cons]

theorem getLast?_mem_list {α : Type} {l : List α} {a : α}
    (h : l.getLast? = some a) : a ∈ l := by
  obtain ⟨hne, heq⟩ := List.mem_getLast?_eq_getLast (Option.mem_def.mpr h)
  rw [heq]
  exact List.getLast_mem hne

/-! Cursor roundtrip.  The ISO codec (new Date(t).toISOString() and
parsing it back) is a parameter pair (toISO, parseISO); the hypotheses
are the standard Date library facts: parsing inverts formatting, and an
ISO-8601 string is pipe-free ASCII. -/

theorem encodeCursor_ne_empty (toISO : Nat → String) (t id : Nat) (hid : 1 ≤ id) :
    encodeCursor toISO t id ≠ "" := by
  rw [encodeCursor, if_neg (by omega)]
  apply b64urlEncode_ne_empty
  intro hcontra
  have : (toISO t ++ "|" ++ natToDec id).data =
      (toISO t).data ++ '|' :: (natToDec id).data := by
    simp [String.data_append]
  rw [hcontra] at this
  simp at this

theorem decodeCursor_encodeCursor (toISO : Nat → String)
    (parseISO : String → Option Nat) (t id : Nat) (hid : 1 ≤ id)
    (hrt : parseISO (toISO t) = some t)
    (hpipe : '|' ∉ (toISO t).data)
    (hbyte : ∀ c ∈ (toISO t).data, c.toNat < 256) :
    decodeCursor parseISO (encodeCursor toISO t id) = some ⟨t, id⟩ := by
  have hdigits := natToDec_chars id
  have hraw : (toISO t ++ "|" ++ natToDec id).data =
      (toISO t).data ++ '|' :: (natToDec id).data := by
    simp [String.data_append]
  have hrawbytes : ∀ c ∈ (toISO t ++ "|" ++ natToDec id).data, c.toNat < 256 := by
    rw [hraw]
    intro c hc
    rcases List.mem_append.mp hc with hc1 | hc2
    · exact hbyte c hc1
    · rcases List.mem_cons.mp hc2 with rfl | hc3
      · decide
      · have := hdigits c hc3
        omega
  rw [encodeCursor, if_neg (by omega)]
  rw [decodeCursor, if_neg (b64urlEncode_ne_empty _ (by rw [hraw]; simp))]
  rw [b64url_roundtrip _ hrawbytes]
  have hsplit : jsSplit '|' (toISO t ++ "|" ++ natToDec id) = [toISO t, natToDec id] := by
    have hmk : (String.mk ['|'] : String) = "|" := rfl
    rw [← hmk]
    apply jsSplit_two
    · exact hpipe
    · intro hcontra
      have h2 := (hdigits '|' hcontra).2
      revert h2
      decide
  simp only [hsplit, hrt, jsStrToNat_natToDec]

/-! On a strictly descending list, filtering strictly below the last
key of the first k elements is exactly dropping those k elements. -/

theorem filter_below_drop : ∀ (M : List PostRow) (k : Nat),
    M.Pairwise (fun a b => keyLt (postKey b) (postKey a) = true) →
    1 ≤ k → k ≤ M.length →
    ∀ lastP, (M.take k).getLast? = some lastP →
    M.filter (fun p => keyLt (postKey p) (postKey lastP)) = M.drop k := by
  intro M
  induction M with
  | nil =>
    intro k _ hk hlen
    simp at hlen
    omega
  | cons p M' ih =>
    intro k hdesc hk hlen lastP hlast
    have hptail : ∀ q ∈ M', keyLt (postKey q) (postKey p) = true :=
      (List.pairwise_cons.mp hdesc).1
    have htail := (List.pairwise_cons.mp hdesc).2
    match k, hk with
    | 1, _ =>
      have h1 : ((p :: M').take 1).getLast? = some p := rfl
      rw [h1] at hlast
      injection hlast with hlastp
      subst hlastp
      rw [List.drop_one, List.tail_cons, List.filter_cons,
        keyLt_irrefl (postKey p)]
      simp only [Bool.false_eq_true, if_false]
      exact List.filter_eq_self.mpr (fun q hq => hptail q hq)
    | k' + 2, _ =>
      have hk' : 1 ≤ k' + 1 := by omega
      have hlen' : k' + 1 ≤ M'.length := by
        simp only [List.length_cons] at hlen
        omega
      have hM'ne : M' ≠ [] := by
        intro hcontra
        rw [hcontra] at hlen'
        simp at hlen'
      have htake : ((p :: M').take (k' + 2)) = p :: M'.take (k' + 1) := rfl
      have htakene : M'.take (k' + 1) ≠ [] := by
        intro hcontra
        have := congrArg List.length hcontra
        simp only [List.length_take, List.length_nil] at this
        omega
      have hlast' : (M'.take (k' + 1)).getLast? = some lastP := by
        rw [htake] at hlast
        match hmm : M'.take (k' + 1) with
        | [] => exact absurd hmm htakene
        | y :: ys =>
          rw [hmm] at hlast
          rw [List.getLast?_cons_cons] at hlast
          exact hlast
      have hlastmem : lastP ∈ M' :=
        List.mem_of_mem_take (getLast?_mem_list hlast')
      have hlastlt : keyLt (postKey lastP) (postKey p) = true := hptail lastP hlastmem
      have hplast : keyLt (postKey p) (postKey lastP) = false :=
        keyLt_asymm _ _ hlastlt
      rw [List.filter_cons, hplast]
      simp only [Bool.false_eq_true, if_false]
      rw [ih (k' + 1) htail hk' hlen' lastP hlast']
      rfl

/-! Characterizing one page of the timeline reader and, by induction on
the page count, the whole nextCursor-following traversal. -/

theorem listBucket_pages (toISO : Nat → String) (store : Store)
    (shop viewer bucket : String) (k : Nat) (cursor : Option Cursor)
    (M : List PostRow)
    (hrows : sortDesc (store.posts.filter (fun p =>
      p.shop == shop && p.bucket == normalizeBucket bucket &&
      bucketCursorPred cursor p)) = M) :
    listBucketPostsWithMeta toISO (some store) shop viewer bucket k cursor =
      ⟨(M.take k).map (enrichPost store viewer),
        if (M.take k).length = k then
          match (M.take k).getLast? with
          | some lastP => encodeCursor toISO lastP.created_at lastP.id
          | none => ""
        else ""⟩ := by
  simp only [listBucketPostsWithMeta, hrows]

theorem rows_eq_of_pred (store : Store) (shop bucket : String)
    (hshop : ∀ p ∈ store.posts, p.shop = shop)
    (hbucket : ∀ p ∈ store.posts, p.bucket = normalizeBucket bucket)
    (hasc : store.posts.Pairwise (fun a b => keyLt (postKey a) (postKey b) = true))
    (cursor : Option Cursor) (g : PostRow → Bool)
    (hpred : ∀ p ∈ store.posts, bucketCursorPred cursor p = g p) :
    sortDesc (store.posts.filter (fun p =>
      p.shop == shop && p.bucket == normalizeBucket bucket &&
      bucketCursorPred cursor p)) = store.posts.reverse.filter g := by
  have h1 : store.posts.filter (fun p =>
      p.shop == shop && p.bucket == normalizeBucket bucket &&
      bucketCursorPred cursor p) = store.posts.filter g := by
    apply List.filter_congr
    intro p hp
    simp [hshop p hp, hbucket p hp, hpred p hp]
  rw [h1, sortDesc_strictAsc _ (List.Pairwise.filter g hasc), List.filter_reverse]

theorem runPages_go (toISO : Nat → String) (parseISO : String → Option Nat)
    (store : Store) (shop viewer bucket : String) (k : Nat)
    (hshop : ∀ p ∈ store.posts, p.shop = shop)
    (hbucket : ∀ p ∈ store.posts, p.bucket = normalizeBucket bucket)
    (hasc : store.posts.Pairwise (fun a b => keyLt (postKey a) (postKey b) = true))
    (hid1 : ∀ p ∈ store.posts, 1 ≤ p.id)
    (hk : 1 ≤ k)
    (hrt : ∀ t, parseISO (toISO t) = some t)
    (hpipe : ∀ t, '|' ∉ (toISO t).data)
    (hbyte : ∀ t, ∀ c ∈ (toISO t).data, c.toNat < 256) :
    ∀ (fuel : Nat) (g : PostRow → Bool) (cs : String),
    (store.posts.reverse.filter g).length < fuel →
    sortDesc (store.posts.filter (fun p =>
      p.shop == shop && p.bucket == normalizeBucket bucket &&
      bucketCursorPred (decodeCursor parseISO cs) p)) =
      store.posts.reverse.filter g →
    (∀ p q, p ∈ store.posts → q ∈ store.posts →
      keyLt (postKey p) (postKey q) = true → g q = true → g p = true) →
    runPages toISO parseISO (some store) shop viewer bucket k fuel cs =
      ((store.posts.reverse.filter g).map (enrichPost store viewer), "") := by
  intro fuel
  induction fuel with
  | zero =>
    intro g cs hfuel _ _
    omega
  | succ fuel ih =>
    intro g cs hfuel hrows hgdown
    have hpage := listBucket_pages toISO store shop viewer bucket k
      (decodeCursor parseISO cs) (store.posts.reverse.filter g) hrows
    by_cases hlen : (store.posts.reverse.filter g).length < k
    · -- short page: fewer rows than the limit, so nextCursor is empty
      have htake : (store.posts.reverse.filter g).take k =
          store.posts.reverse.filter g :=
        List.take_of_length_le (by omega)
      have hnc : ¬((store.posts.reverse.filter g).length = k) := by omega
      simp only [runPages, hpage, htake, if_neg hnc]
      simp
    · -- full page: follow the minted cursor into the strict suffix
      have hge : k ≤ (store.posts.reverse.filter g).length := by omega
      have hlentake : ((store.posts.reverse.filter g).take k).length = k := by
        rw [List.length_take]
        omega
      have htakene : (store.posts.reverse.filter g).take k ≠ [] := by
        intro hcontra
        rw [hcontra] at hlentake
        simp at hlentake
        omega
      have hlast := List.getLast?_eq_getLast_of_ne_nil htakene
      set lastP := ((store.posts.reverse.filter g).take k).getLast htakene with hlastP
      have hlastmemM : lastP ∈ store.posts.reverse.filter g :=
        List.mem_of_mem_take (getLast?_mem_list hlast)
      have hlastmem : lastP ∈ store.posts := by
        have := List.mem_filter.mp hlastmemM
        exact List.mem_reverse.mp this.1
      have hglast : g lastP = true := (List.mem_filter.mp hlastmemM).2
      have hlastid : 1 ≤ lastP.id := hid1 lastP hlastmem
      have hdesc : (store.posts.reverse.filter g).Pairwise
          (fun a b => keyLt (postKey b) (postKey a) = true) := by
        apply List.Pairwise.filter
        rw [List.pairwise_reverse]
        exact hasc
      have hdropeq : (store.posts.reverse.filter g).filter
          (fun p => keyLt (postKey p) (postKey lastP)) =
          (store.posts.reverse.filter g).drop k :=
        filter_below_drop _ k hdesc hk hge lastP hlast
      have hfiltg : store.posts.reverse.filter
          (fun p => keyLt (postKey p) (postKey lastP)) =
          (store.posts.reverse.filter g).filter
            (fun p => keyLt (postKey p) (postKey lastP)) := by
        rw [List.filter_filter]
        apply List.filter_congr
        intro p hp
        have hpmem : p ∈ store.posts := List.mem_reverse.mp hp
        by_cases hplt : keyLt (postKey p) (postKey lastP) = true
        · rw [hplt, hgdown p lastP hpmem hlastmem hplt hglast]
          rfl
        · rw [Bool.not_eq_true] at hplt
          rw [hplt]
          rfl
      have hdec : decodeCursor parseISO
          (encodeCursor toISO lastP.created_at lastP.id) =
          some ⟨lastP.created_at, lastP.id⟩ :=
        decodeCursor_encodeCursor toISO parseISO lastP.created_at lastP.id hlastid
          (hrt lastP.created_at) (hpipe lastP.created_at) (hbyte lastP.created_at)
      have hpred : ∀ p ∈ store.posts,
          bucketCursorPred (some ⟨lastP.created_at, lastP.id⟩) p =
          keyLt (postKey p) (postKey lastP) := by
        intro p _
        simp only [bucketCursorPred]
        rw [if_pos (by omega)]
        rfl
      have hrows' := rows_eq_of_pred store shop bucket hshop hbucket hasc
        (some ⟨lastP.created_at, lastP.id⟩)
        (fun p => keyLt (postKey p) (postKey lastP)) hpred
      have hncne : encodeCursor toISO lastP.created_at lastP.id ≠ "" :=
        encodeCursor_ne_empty toISO lastP.created_at lastP.id hlastid
      have hfuel' : (store.posts.reverse.filter
          (fun p => keyLt (postKey p) (postKey lastP))).length < fuel := by
        rw [hfiltg, hdropeq, List.length_drop]
        omega
      have hih := ih (fun p => keyLt (postKey p) (postKey lastP))
        (encodeCursor toISO lastP.created_at lastP.id) hfuel'
        (by rw [hdec]; exact hrows')
        (fun p q hp hq hpq hq2 => keyLt_trans _ _ _ hpq hq2)
      have hncval : (if ((store.posts.reverse.filter g).take k).length = k then
          match ((store.posts.reverse.filter g).take k).getLast? with
          | some lastQ => encodeCursor toISO lastQ.created_at lastQ.id
          | none => ""
        else "") = encodeCursor toISO lastP.created_at lastP.id := by
        rw [if_pos hlentake, hlast]
      simp only [runPages, hpage, hncval, if_neg hncne, hih, hfiltg, hdropeq]
      rw [← List.map_append, List.take_append_drop]

/-! Decimal strings satisfy every contract the cursor codec needs from
an ISO formatter, so they serve as the concrete (toISO, parseISO)
instantiation in witnesses. -/

theorem natToDec_no_pipe (t : Nat) : '|' ∉ (natToDec t).data := by
  intro h
  have h2 := (natToDec_chars t '|' h).2
  revert h2
  decide

theorem natToDec_bytes (t : Nat) : ∀ c ∈ (natToDec t).data, c.toNat < 256 := by
  intro c hc
  have := (natToDec_chars t c hc).2
  omega

theorem mem_page_row (toISO : Nat → String) (store : Store)
    (shop viewer bucket : String) (k : Nat) (cursor : Option Cursor)
    (e : EnrichedPost)
    (h : e ∈ (listBucketPostsWithMeta toISO (some store) shop viewer bucket k
      cursor).posts) :
    ∃ p ∈ store.posts, e = enrichPost store viewer p ∧
      (p.shop == shop) = true ∧ (p.bucket == normalizeBucket bucket) = true ∧
      bucketCursorPred cursor p = true := by
  simp only [listBucketPostsWithMeta] at h
  obtain ⟨p, hp, hpe⟩ := List.mem_map.mp h
  have hp2 := List.mem_of_mem_take hp
  have hp3 := (mem_sortDesc p _).mp hp2
  have hp4 := List.mem_filter.mp hp3
  have hpred := hp4.2
  simp only [Bool.and_eq_true] at hpred
  exact ⟨p, hp4.1, hpe.symm, hpred.1.1, hpred.1.2, hpred.2⟩

/-! The spec's concrete pagination scenario: sixteen feed posts for
shop s1 with ids 1..16 and strictly increasing timestamps. -/

def scenarioPosts : List PostRow :=
  (List.range 16).map (fun i =>
    { id := i + 1, shop := "s1", customer_id := "c", body := "",
      bucket := "feed", created_at := 1000 + (i + 1) })

def scenarioStore : Store :=
  { posts := scenarioPosts, media := [], likes := [], comments := [],
    nextPostId := 17 }

def scenarioPage1 : FeedPage :=
  listBucketPostsWithMeta natToDec (some scenarioStore) "s1" "v" "feed" 10 none

def scenarioPage2 : FeedPage :=
  listBucketPostsWithMeta natToDec (some scenarioStore) "s1" "v" "feed" 10
    (decodeCursor decToNat scenarioPage1.nextCursor)

/-- C3: for every collection of N posts in one shop and bucket whose
(created_at, id) sort keys are strictly increasing, paging with any
limit k ≥ 1 from no cursor and following each returned nextCursor
visits all N posts exactly once in descending (created_at, id) order
and ends with an empty nextCursor; concretely, with 16 feed posts with
ids 1..16 and increasing timestamps, page 1 at limit 10 returns ids
16..7 with a non-empty cursor and page 2 returns ids 6..1 with an
empty cursor. -/
theorem timeline_cursor_monotonicity :
    (∀ (toISO : Nat → String) (parseISO : String → Option Nat) (store : Store)
       (shop viewer bucket : String) (k : Nat),
      (∀ p ∈ store.posts, p.shop = shop) →
      (∀ p ∈ store.posts, p.bucket = normalizeBucket bucket) →
      store.posts.Pairwise (fun a b => keyLt (postKey a) (postKey b) = true) →
      (∀ p ∈ store.posts, 1 ≤ p.id) →
      1 ≤ k →
      (∀ t, parseISO (toISO t) = some t) →
      (∀ t, '|' ∉ (toISO t).data) →
      (∀ t, ∀ c ∈ (toISO t).data, c.toNat < 256) →
      runPages toISO parseISO (some store) shop viewer bucket k
          (store.posts.length + 1) "" =
        (store.posts.reverse.map (enrichPost store viewer), "")) ∧
    scenarioPage1.posts.map (fun e => e.row.id) =
      [16, 15, 14, 13, 12, 11, 10, 9, 8, 7] ∧
    scenarioPage1.nextCursor ≠ "" ∧
    scenarioPage2.posts.map (fun e => e.row.id) = [6, 5, 4, 3, 2, 1] ∧
    scenarioPage2.nextCursor = "" := by
  refine ⟨?_, by decide, by decide, by decide, by decide⟩
  intro toISO parseISO store shop viewer bucket k hshop hbucket hasc hid1 hk
    hrt hpipe hbyte
  have h := runPages_go toISO parseISO store shop viewer bucket k hshop hbucket
    hasc hid1 hk hrt hpipe hbyte (store.posts.length + 1) (fun _ => true) ""
    (by rw [List.filter_true, List.length_reverse]; omega)
    (rows_eq_of_pred store shop bucket hshop hbucket hasc _ _ (fun p _ => rfl))
    (fun p q _ _ _ _ => rfl)
  rw [List.filter_true] at h
  exact h

/-- C3 witness: the universal pagination theorem applied to the concrete
16-post scenario with the decimal date codec. -/
theorem timeline_cursor_monotonicity_witness :
    runPages natToDec decToNat (some scenarioStore) "s1" "v" "feed" 10
      (scenarioStore.posts.length + 1) "" =
    (scenarioStore.posts.reverse.map (enrichPost scenarioStore "v"), "") :=
  timeline_cursor_monotonicity.1 natToDec decToNat scenarioStore "s1" "v" "feed" 10
    (by decide) (by decide) (by decide) (by decide) (by decide)
    decToNat_natToDec natToDec_no_pipe natToDec_bytes

/-! C4 concerns the strict-below-cursor filter.  A cursor whose id
component is 0 parses successfully but the reader then skips the filter
entirely, so the claim as stated fails; the id ≠ 0 case is exact. -/

def cexPost : PostRow :=
  { id := 1, shop := "s", customer_id := "c", body := "", bucket := "feed",
    created_at := 5 }

def cexStore : Store :=
  { posts := [cexPost], media := [], likes := [], comments := [], nextPostId := 2 }

def cexZeroCursor : String := b64urlEncode "3|0"

/-- C4 counterexample: the cursor encoding (createdAt 3, id 0) parses
successfully, yet the read returns the stored post whose key (5, 1) is
not below the cursor pair — the filter is skipped when the parsed id
is falsy. -/
theorem cursor_zero_id_counterexample :
    decodeCursor decToNat cexZeroCursor = some ⟨3, 0⟩ ∧
    (listBucketPostsWithMeta natToDec (some cexStore) "s" "v" "feed" 10
      (decodeCursor decToNat cexZeroCursor)).posts.map (fun e => e.row.id) = [1] ∧
    keyLt (postKey cexPost) (3, 0) = false := by
  exact ⟨by decide, by decide, by decide⟩

/-- C4 (amended): for every read whose supplied cursor parses to a pair
with a nonzero id, every returned post's (created_at, id) key is
strictly below the cursor pair, over any store; moreover, over a store
of strictly increasing keys, following pages from such a cursor visits
exactly the posts strictly below it, in descending order, exactly once
— so nothing at or above the cursor (in particular nothing inserted
after it was issued) ever appears, and nothing below it is skipped. -/
theorem timeline_cursor_filtering :
    (∀ (toISO : Nat → String) (db : Option Store) (shop viewer bucket : String)
       (k : Nat) (cur : Cursor), cur.id ≠ 0 →
      ∀ e ∈ (listBucketPostsWithMeta toISO db shop viewer bucket k
        (some cur)).posts,
        keyLt (postKey e.row) (cur.createdAt, cur.id) = true) ∧
    (∀ (toISO : Nat → String) (parseISO : String → Option Nat) (store : Store)
       (shop viewer bucket : String) (k : Nat),
      (∀ p ∈ store.posts, p.shop = shop) →
      (∀ p ∈ store.posts, p.bucket = normalizeBucket bucket) →
      store.posts.Pairwise (fun a b => keyLt (postKey a) (postKey b) = true) →
      (∀ p ∈ store.posts, 1 ≤ p.id) →
      1 ≤ k →
      (∀ t, parseISO (toISO t) = some t) →
      (∀ t, '|' ∉ (toISO t).data) →
      (∀ t, ∀ c ∈ (toISO t).data, c.toNat < 256) →
      ∀ (cs : String) (cur : Cursor),
      decodeCursor parseISO cs = some cur → cur.id ≠ 0 →
      runPages toISO parseISO (some store) shop viewer bucket k
          (store.posts.length + 1) cs =
        ((store.posts.reverse.filter
            (fun p => keyLt (postKey p) (cur.createdAt, cur.id))).map
          (enrichPost store viewer), "")) := by
  constructor
  · intro toISO db shop viewer bucket k cur hcur e he
    match db with
    | none => simp [listBucketPostsWithMeta] at he
    | some store =>
      obtain ⟨p, _, hep, _, _, hpred⟩ :=
        mem_page_row toISO store shop viewer bucket k (some cur) e he
      rw [hep]
      simp only [bucketCursorPred, if_pos hcur] at hpred
      exact hpred
  · intro toISO parseISO store shop viewer bucket k hshop hbucket hasc hid1 hk
      hrt hpipe hbyte cs cur hdc hcur
    apply runPages_go toISO parseISO store shop viewer bucket k hshop hbucket
      hasc hid1 hk hrt hpipe hbyte
    · have h1 := List.length_filter_le
        (fun p => keyLt (postKey p) (cur.createdAt, cur.id)) store.posts.reverse
      rw [List.length_reverse] at h1
      omega
    · rw [hdc]
      exact rows_eq_of_pred store shop bucket hshop hbucket hasc (some cur) _
        (fun p _ => by simp only [bucketCursorPred, if_pos hcur])
    · intro p q _ _ hpq hq
      exact keyLt_trans _ _ _ hpq hq

/-- C4 witness: the amended theorem applied to the 16-post scenario and
the cursor pointing at post 7 (createdAt 1007, id 7). -/
theorem timeline_cursor_filtering_witness :
    runPages natToDec decToNat (some scenarioStore) "s1" "v" "feed" 10
      (scenarioStore.posts.length + 1) (encodeCursor natToDec 1007 7) =
    ((scenarioStore.posts.reverse.filter
        (fun p => keyLt (postKey p) (1007, 7))).map
      (enrichPost scenarioStore "v"), "") :=
  timeline_cursor_filtering.2 natToDec decToNat scenarioStore "s1" "v" "feed" 10
    (by decide) (by decide) (by decide) (by decide) (by decide)
    decToNat_natToDec natToDec_no_pipe natToDec_bytes
    (encodeCursor natToDec 1007 7) ⟨1007, 7⟩ (by decide) (by decide)

/-! Bucket isolation. -/

theorem page_bucket_eq (toISO : Nat → String) (db : Option Store)
    (shop viewer bucket : String) (k : Nat) (cursor : Option Cursor) :
    ∀ e ∈ (listBucketPostsWithMeta toISO db shop viewer bucket k cursor).posts,
      e.row.bucket = normalizeBucket bucket := by
  intro e he
  match db with
  | none => simp [listBucketPostsWithMeta] at he
  | some store =>
    obtain ⟨p, _, hep, _, hb, _⟩ :=
      mem_page_row toISO store shop viewer bucket k cursor e he
    rw [hep]
    exact eq_of_beq hb

def cexTradesRow : PostRow :=
  { id := 2, shop := "s", customer_id := "c", body := "", bucket := "trades",
    created_at := 100 }

def cexStore2 : Store :=
  { posts := cexStore.posts ++ [cexTradesRow], media := [], likes := [],
    comments := [], nextPostId := 3 }

/-- C8: normalizeBucket always yields one of feed, collection, trades
(unrecognized input defaulting to feed); every post returned by a
timeline page for bucket Y carries the normalized Y; and after creating
a post with bucket X whose normalization differs from Y, every item of
a page fetched for Y was already present before the create — the new
post never appears. -/
theorem bucket_isolation :
    (∀ x, normalizeBucket x = "feed" ∨ normalizeBucket x = "collection" ∨
      normalizeBucket x = "trades") ∧
    (∀ (toISO : Nat → String) (db : Option Store) (shop viewer bucket : String)
       (k : Nat) (cursor : Option Cursor),
      ∀ e ∈ (listBucketPostsWithMeta toISO db shop viewer bucket k cursor).posts,
        e.row.bucket = normalizeBucket bucket) ∧
    (∀ (store : Store) (now : Nat) (shop cid body x : String)
       (toISO : Nat → String) (shop2 viewer y : String) (k : Nat)
       (cursor : Option Cursor) (st' : Store) (pid : Nat),
      normalizeBucket x ≠ normalizeBucket y →
      createPost (some store) now shop cid body x = some (st', pid) →
      ∀ e ∈ (listBucketPostsWithMeta toISO (some st') shop2 viewer y k
        cursor).posts, e.row ∈ store.posts) := by
  refine ⟨?_, page_bucket_eq, ?_⟩
  · intro x
    simp only [normalizeBucket]
    by_cases h1 : jsTrim (jsToLowerCase x) = "collection" ∨
        jsTrim (jsToLowerCase x) = "collections"
    · rw [if_pos h1]
      right; left; rfl
    · rw [if_neg h1]
      by_cases h2 : jsTrim (jsToLowerCase x) = "trade" ∨
          jsTrim (jsToLowerCase x) = "trades"
      · rw [if_pos h2]
        right; right; rfl
      · rw [if_neg h2]
        left; rfl
  · intro store now shop cid body x toISO shop2 viewer y k cursor st' pid
      hxy hcreate e he
    simp only [createPost, Option.some.injEq, Prod.mk.injEq] at hcreate
    obtain ⟨hst, hpid⟩ := hcreate
    obtain ⟨p, hpmem, hep, _, _, _⟩ :=
      mem_page_row toISO st' shop2 viewer y k cursor e he
    have hbuck := page_bucket_eq toISO (some st') shop2 viewer y k cursor e he
    rw [← hst] at hpmem
    simp only [List.mem_append, List.mem_singleton] at hpmem
    rcases hpmem with hold | hnew
    · rw [hep]
      exact hold
    · exfalso
      apply hxy
      rw [hep] at hbuck
      rw [hnew] at hbuck
      exact hbuck.symm ▸ rfl

/-- C8 witness: creating a trades post into the one-post store and
reading the feed bucket returns only pre-existing posts. -/
theorem bucket_isolation_witness :
    normalizeBucket "trades" ≠ normalizeBucket "feed" ∧
    createPost (some cexStore) 100 "s" "c" "" "trades" = some (cexStore2, 2) ∧
    (∀ e ∈ (listBucketPostsWithMeta natToDec (some cexStore2) "s" "v" "feed" 10
      none).posts, e.row ∈ cexStore.posts) :=
  ⟨by decide, by decide,
    bucket_isolation.2.2 cexStore 100 "s" "c" "" "trades" natToDec "s" "v" "feed"
      10 none cexStore2 2 (by decide) (by decide)⟩

/-! Like toggling. -/

theorem likeMatches_self (shop : String) (postId : Nat) (cid : String) :
    likeMatches postId cid ⟨shop, postId, cid⟩ = true := by
  simp [likeMatches]

theorem toggle_liked_flip (store : Store) (shop : String) (postId : Nat)
    (cid : String) :
    likedIn (toggleLikeCore store shop postId cid).1 postId cid =
      !(likedIn store postId cid) := by
  by_cases h : store.likes.any (likeMatches postId cid) = true
  · simp only [toggleLikeCore, likedIn, if_pos h, h, Bool.not_true]
    rw [List.any_eq_false]
    intro l hl
    have := (List.mem_filter.mp hl).2
    simp only [Bool.not_eq_eq_eq_not, Bool.not_true] at this
    simp [this]
  · rw [Bool.not_eq_true] at h
    simp only [toggleLikeCore, likedIn, h, Bool.false_eq_true, if_false,
      Bool.not_false]
    rw [List.any_append]
    simp [likeMatches_self, h]

theorem toggle_count (store : Store) (shop : String) (postId : Nat)
    (cid : String) :
    likePairCount (toggleLikeCore store shop postId cid).1 postId cid =
      if likedIn store postId cid then 0 else 1 := by
  by_cases h : store.likes.any (likeMatches postId cid) = true
  · simp only [toggleLikeCore, likePairCount, likedIn, if_pos h, h, if_true]
    rw [List.filter_filter]
    have hnil : store.likes.filter
        (fun a => likeMatches postId cid a && !likeMatches postId cid a) = [] := by
      apply List.filter_eq_nil_iff.mpr
      intro a _
      cases likeMatches postId cid a <;> simp
    rw [hnil]
    rfl
  · rw [Bool.not_eq_true] at h
    have hnil : store.likes.filter (likeMatches postId cid) = [] := by
      apply List.filter_eq_nil_iff.mpr
      rw [List.any_eq_false] at h
      intro a ha
      exact fun hc => h a ha hc
    simp only [toggleLikeCore, likePairCount, likedIn, h, Bool.false_eq_true,
      if_false]
    rw [List.filter_append, hnil, List.nil_append]
    simp [likeMatches_self]

theorem iterToggle_liked (shop : String) (postId : Nat) (cid : String) :
    ∀ (n : Nat) (store : Store),
    likedIn (iterToggle shop postId cid n store) postId cid =
      Bool.xor (likedIn store postId cid) (decide (n % 2 = 1)) := by
  intro n
  induction n with
  | zero =>
    intro store
    simp [iterToggle]
  | succ n ih =>
    intro store
    simp only [iterToggle]
    rw [ih, toggle_liked_flip]
    by_cases hp : n % 2 = 1
    · have h1 : (n + 1) % 2 = 0 := by omega
      rw [hp, h1]
      cases likedIn store postId cid <;> decide
    · have h0 : n % 2 = 0 := by omega
      have h1 : (n + 1) % 2 = 1 := by omega
      rw [h1]
      simp only [hp]
      cases likedIn store postId cid <;> decide

theorem iterToggle_count (shop : String) (postId : Nat) (cid : String) :
    ∀ (m : Nat) (store : Store),
    likePairCount (iterToggle shop postId cid (m + 1) store) postId cid =
      if likedIn (iterToggle shop postId cid (m + 1) store) postId cid then 1
      else 0 := by
  intro m
  induction m with
  | zero =>
    intro store
    simp only [iterToggle]
    rw [toggle_count]
    cases h : likedIn store postId cid
    · simp [toggle_liked_flip, h]
    · simp [toggle_liked_flip, h]
  | succ m ih =>
    intro store
    show likePairCount (iterToggle shop postId cid (m + 1)
      (toggleLikeCore store shop postId cid).1) postId cid = _
    exact ih (toggleLikeCore store shop postId cid).1

theorem likedIn_count_pos (store : Store) (postId : Nat) (cid : String)
    (h : likedIn store postId cid = true) :
    1 ≤ likePairCount store postId cid := by
  rw [likedIn, List.any_eq_true] at h
  obtain ⟨l, hl, hm⟩ := h
  have : l ∈ store.likes.filter (likeMatches postId cid) :=
    List.mem_filter.mpr ⟨hl, hm⟩
  have := List.length_pos_of_mem this
  rw [likePairCount]
  omega

theorem likedIn_count_zero (store : Store) (postId : Nat) (cid : String)
    (h : likedIn store postId cid = false) :
    likePairCount store postId cid = 0 := by
  rw [likedIn, List.any_eq_false] at h
  rw [likePairCount, List.filter_eq_nil_iff.mpr (fun a ha => h a ha)]
  rfl

/-- C9: for every shop, post and customer and any starting state, the
liked-row membership after N successive toggleLike calls is the
original membership XORed with N mod 2; two toggles restore the
original membership, and (the like row being unique per pair under the
primary key) two toggles also restore the row count. -/
theorem toggleLike_parity :
    (∀ (store : Store) (shop : String) (postId : Nat) (cid : String) (n : Nat),
      likedIn (iterToggle shop postId cid n store) postId cid =
        Bool.xor (likedIn store postId cid) (decide (n % 2 = 1))) ∧
    (∀ (store : Store) (shop : String) (postId : Nat) (cid : String),
      likedIn (iterToggle shop postId cid 2 store) postId cid =
        likedIn store postId cid) ∧
    (∀ (store : Store) (shop : String) (postId : Nat) (cid : String) (n : Nat),
      1 ≤ n →
      likePairCount (iterToggle shop postId cid n store) postId cid =
        if likedIn (iterToggle shop postId cid n store) postId cid then 1
        else 0) ∧
    (∀ (store : Store) (shop : String) (postId : Nat) (cid : String),
      likePairCount store postId cid ≤ 1 →
      likePairCount (iterToggle shop postId cid 2 store) postId cid =
        likePairCount store postId cid) := by
  have hparity := fun store shop postId cid n =>
    iterToggle_liked shop postId cid n store
  have htwo : ∀ (store : Store) (shop : String) (postId : Nat) (cid : String),
      likedIn (iterToggle shop postId cid 2 store) postId cid =
        likedIn store postId cid := by
    intro store shop postId cid
    rw [hparity]
    cases likedIn store postId cid <;> decide
  have hcount : ∀ (store : Store) (shop : String) (postId : Nat) (cid : String)
      (n : Nat), 1 ≤ n →
      likePairCount (iterToggle shop postId cid n store) postId cid =
        if likedIn (iterToggle shop postId cid n store) postId cid then 1
        else 0 := by
    intro store shop postId cid n hn
    match n, hn with
    | m + 1, _ => exact iterToggle_count shop postId cid m store
  refine ⟨hparity, htwo, hcount, ?_⟩
  intro store shop postId cid hle
  rw [hcount store shop postId cid 2 (by omega), htwo]
  by_cases h : likedIn store postId cid = true
  · rw [h, if_pos rfl]
    have := likedIn_count_pos store postId cid h
    omega
  · rw [Bool.not_eq_true] at h
    rw [h]
    simp only [Bool.false_eq_true, if_false]
    exact (likedIn_count_zero store postId cid h).symm

def likedStore : Store :=
  { posts := [], media := [], likes := [⟨"s", 1, "c"⟩], comments := [],
    nextPostId := 1 }

/-- C9 witness: toggling twice on a store that holds exactly one like
row for the pair restores both membership and count. -/
theorem toggleLike_parity_witness :
    likePairCount likedStore 1 "c" ≤ 1 ∧
    likePairCount (iterToggle "s" 1 "c" 2 likedStore) 1 "c" =
      likePairCount likedStore 1 "c" :=
  ⟨by decide, toggleLike_parity.2.2.2 likedStore "s" 1 "c" (by decide)⟩

/-! Session token theorems.  hmacLen is a content-independent stand-in
digest used in concrete witnesses: verifySession's control flow only
ever compares the digest for string equality, so any deterministic
function exhibits the same behaviour as HMAC-SHA256 there.
jsonParseTable is a partial inverse of jsonStringify on a finite set of
values, the contract JSON.parse provides on stringify output. -/

def hmacLen : Hmac := fun _ data => natToDec data.length

def jsonParseTable (vs : List JValue) : JsonParse :=
  fun s => vs.find? (fun v => jsonStringify v == s)

theorem dot_notin_b64 : '.' ∉ b64Chars := by decide

theorem checkFields_objGate (v : JValue) (h : checkFields v = true) :
    jObjGate v = true := by
  cases v <;> simp_all [checkFields, jGet, jObjGate]

theorem token_data_split (data mac : String)
    (hdata : ∀ ch ∈ data.data, ch ∈ b64Chars)
    (hmacdot : '.' ∉ mac.data) :
    jsSplit '.' (data ++ "." ++ mac) = [data, mac] := by
  have hmk : (String.mk ['.'] : String) = "." := rfl
  rw [← hmk]
  apply jsSplit_two
  · intro hcontra
    exact dot_notin_b64 (hdata '.' hcontra)
  · exact hmacdot

theorem token_ne_empty (data mac : String) : data ++ "." ++ mac ≠ "" := by
  intro hcontra
  have : (data ++ "." ++ mac).data = data.data ++ '.' :: mac.data := by
    simp [String.data_append]
  rw [hcontra] at this
  simp at this

theorem verifySession_some_eq (hmac : Hmac) (jsonParse : JsonParse)
    (secret : String) (now : Int) (t : String)
    (h1 : secret ≠ "") (h2 : t ≠ "") :
    verifySession hmac jsonParse secret now (some t) =
      (match jsSplit '.' t with
       | [data, mac] =>
         if hmac secret data ≠ mac then none
         else
           match jsonParse (b64urlDecodeToString data) with
           | none => none
           | some obj =>
             if jObjGate obj then
               if checkFields obj then
                 if expRejected now obj then none else some obj
               else none
             else none
       | _ => none) := by
  simp only [verifySession, h1, h2]
  simp

/-- C1 (amended): verifySession returns a payload only if the secret is
configured, the token splits into exactly two dot-separated segments
whose second segment equals the digest of the first under the current
secret, the required fields are present and non-empty, and the exp
guard does not fire — i.e. whenever exp is a truthy numeric value that
is nonzero, it is not strictly in the past (now ≤ exp).  A falsy exp
(absent or 0) disables the expiry check, and exp equal to now is
accepted, so "strictly in the future" does not hold as stated. -/
theorem verifySession_only_if (hmac : Hmac) (jsonParse : JsonParse)
    (secret : String) (now : Int) (t : String) (obj : JValue)
    (h : verifySession hmac jsonParse secret now (some t) = some obj) :
    secret ≠ "" ∧
    (∃ data mac, jsSplit '.' t = [data, mac] ∧ hmac secret data = mac) ∧
    checkFields obj = true ∧
    expRejected now obj = false ∧
    (∀ e : Int, jGet obj "exp" = some (.jnum e) → e ≠ 0 → now ≤ e) := by
  by_cases h1 : secret = ""
  · simp [verifySession, h1] at h
  by_cases h2 : t = ""
  · simp [verifySession, h1, h2] at h
  rw [verifySession_some_eq hmac jsonParse secret now t h1 h2] at h
  match hsp : jsSplit '.' t with
  | [] => rw [hsp] at h; simp at h
  | [x] => rw [hsp] at h; simp at h
  | x :: y :: z :: rest => rw [hsp] at h; simp at h
  | [data, mac] =>
    rw [hsp] at h
    simp only [] at h
    by_cases hm : hmac secret data ≠ mac
    · rw [if_pos hm] at h; simp at h
    rw [if_neg hm] at h
    push_neg at hm
    match hp : jsonParse (b64urlDecodeToString data) with
    | none => rw [hp] at h; simp at h
    | some obj2 =>
      rw [hp] at h
      simp only [] at h
      by_cases hg : jObjGate obj2 = true
      · rw [if_pos hg] at h
        by_cases hc : checkFields obj2 = true
        · rw [if_pos hc] at h
          by_cases he : expRejected now obj2 = true
          · rw [if_pos he] at h; simp at h
          · rw [if_neg he] at h
            rw [Bool.not_eq_true] at he
            injection h with hobj
            subst hobj
            refine ⟨h1, ⟨data, mac, rfl, hm⟩, hc, he, ?_⟩
            intro e hget hene
            rw [expRejected, hget] at he
            simp only [jTruthy, jToNumber] at he
            rw [show (e != 0) = true by simpa using hene, Bool.true_and] at he
            have := of_decide_eq_false he
            omega
        · rw [if_neg hc] at h; simp at h
      · rw [if_neg hg] at h; simp at h

/-- C1 counterexample: a token signed over a payload whose exp field is
0 — an epoch time far in the past — still decodes to its payload,
because the expiry check only fires when exp is truthy, so "every
signed token whose exp is not a future time decodes as invalid" fails
on the code. -/
def payloadExp0 : JValue :=
  .jobj [("customer_id", .jstr "c"), ("shop", .jstr "s"),
         ("path_prefix", .jstr "/apps/nuggetdepot"), ("exp", .jnum 0)]

theorem session_exp_zero_counterexample :
    verifySession hmacLen (jsonParseTable [payloadExp0]) "secret" 1700000000000
      (some (signSession hmacLen "secret" payloadExp0)) = some payloadExp0 ∧
    jGet payloadExp0 "exp" = some (.jnum 0) ∧ (0 : Int) < 1700000000000 :=
  ⟨by rfl, by rfl, by decide⟩

/-- C1 witness: the only-if theorem applied to the concrete exp-0 token. -/
theorem verifySession_only_if_witness :
    checkFields payloadExp0 = true ∧
    expRejected 1700000000000 payloadExp0 = false :=
  have h := verifySession_only_if hmacLen (jsonParseTable [payloadExp0]) "secret"
    1700000000000 (signSession hmacLen "secret" payloadExp0) payloadExp0 (by rfl)
  ⟨h.2.2.1, h.2.2.2.1⟩

/-- C5 (amended): decode inverts encode — verifySession of
signSession(payload) returns the payload exactly — for every payload
object with non-empty string customer_id, shop and path_prefix,
provided the secret is configured, JSON.parse inverts JSON.stringify
on this payload, the digest is dot-free hex, and the payload's exp
does not trip the expiry guard (it is falsy, or now ≤ exp).  Without
the last condition the claim fails: a payload with a truthy past exp
decodes to null, not to the payload. -/
theorem signSession_roundtrip (hmac : Hmac) (jsonParse : JsonParse)
    (secret : String) (payload : JValue) (now : Int)
    (hsec : secret ≠ "")
    (hparse : jsonParse (jsonStringify payload) = some payload)
    (hbytes : ∀ c ∈ (jsonStringify payload).data, c.toNat < 256)
    (hmacdot : '.' ∉ (hmac secret (b64urlEncode (jsonStringify payload))).data)
    (hfields : checkFields payload = true)
    (hexp : expRejected now payload = false) :
    verifySession hmac jsonParse secret now
      (some (signSession hmac secret payload)) = some payload := by
  have hsign : signSession hmac secret payload =
      b64urlEncode (jsonStringify payload) ++ "." ++
        hmac secret (b64urlEncode (jsonStringify payload)) := rfl
  rw [hsign, verifySession_some_eq hmac jsonParse secret now _ hsec
    (token_ne_empty _ _)]
  rw [token_data_split _ _ (b64urlEncode_chars _ hbytes) hmacdot]
  simp only [ne_eq, not_true_eq_false, if_false,
    b64url_roundtrip _ hbytes, hparse, checkFields_objGate payload hfields,
    hfields, if_true, hexp, Bool.false_eq_true]

def payloadPast : JValue :=
  .jobj [("customer_id", .jstr "c"), ("shop", .jstr "s"),
         ("path_prefix", .jstr "/apps/nuggetdepot"), ("exp", .jnum 5)]

/-- C5 counterexample: a payload carrying the required fields plus
exp = 5 (a past epoch time) does not round-trip — decoding the encoding
yields null rather than the payload — refuting the claim for arbitrary
exp values. -/
theorem session_roundtrip_counterexample :
    verifySession hmacLen (jsonParseTable [payloadPast]) "secret" 1700000000000
      (some (signSession hmacLen "secret" payloadPast)) = none ∧
    checkFields payloadPast = true :=
  ⟨by rfl, by rfl⟩

def payloadFut : JValue :=
  .jobj [("customer_id", .jstr "c"), ("shop", .jstr "s"),
         ("path_prefix", .jstr "/apps/nuggetdepot"), ("exp", .jnum 1700000001000)]

/-- C5 witness: the round-trip theorem applied to a concrete payload
with a future exp under the stand-in digest and table parser. -/
theorem signSession_roundtrip_witness :
    verifySession hmacLen (jsonParseTable [payloadFut]) "secret" 1700000000000
      (some (signSession hmacLen "secret" payloadFut)) = some payloadFut :=
  signSession_roundtrip hmacLen (jsonParseTable [payloadFut]) "secret" payloadFut
    1700000000000 (by decide) (by rfl) (by decide) (by decide) (by rfl) (by rfl)

/-! Proxy signature verification (C6) and the session bridge (C7). -/

def sigOf (query : List (String × QVal)) : String :=
  match qLookup query "signature" with
  | some (.qstr s) => s
  | _ => ""

/-- C6: verifyShopifyProxy is a total boolean function of the request
(it cannot throw by construction) that fails closed: it returns false
for every request when the shared secret is unconfigured, and — for
every digest function whatsoever, i.e. without consulting the HMAC —
returns false whenever the signature query parameter is absent, empty,
or not a single string (all of which make the extracted signature
string empty). -/
theorem verifyShopifyProxy_fails_closed :
    (∀ (hmac : Hmac) (query : List (String × QVal)),
      verifyShopifyProxy hmac "" query = false) ∧
    (∀ (secret : String) (query : List (String × QVal)),
      sigOf query = "" →
      ∀ hmac : Hmac, verifyShopifyProxy hmac secret query = false) := by
  constructor
  · intro hmac query
    simp [verifyShopifyProxy]
  · intro secret query hsig hmac
    by_cases hs : secret = ""
    · simp [verifyShopifyProxy, hs]
    · rw [sigOf] at hsig
      simp only [verifyShopifyProxy, if_neg hs, hsig]
      simp

/-- C6 witness: a request with no signature parameter fails under an
arbitrary concrete digest and a configured secret. -/
theorem verifyShopifyProxy_fails_closed_witness :
    sigOf [("shop", .qstr "s")] = "" ∧
    verifyShopifyProxy hmacLen "secret" [("shop", .qstr "s")] = false :=
  ⟨rfl, verifyShopifyProxy_fails_closed.2 "secret" [("shop", .qstr "s")] rfl hmacLen⟩

def qPathOrDefault (query : List (String × QVal)) : String :=
  match qLookup query "path_prefix" with
  | some (.qstr s) => s
  | _ => "/apps/nuggetdepot"

/-- C7 (amended): on a request whose proxy signature verifies,
requireProxyAuth proceeds and mints the session cookie exactly when the
customer id, the shop, and the EFFECTIVE path prefix are all non-empty
— where the effective path prefix is the path_prefix query parameter
when it is a string, and the non-empty default /apps/nuggetdepot when
the parameter is absent or not a string.  Consequently a verified
request carrying shop and customer id but NO path_prefix parameter
still mints a cookie (refuting the original claim's only-if); only an
explicit empty-string path_prefix suppresses minting.  An empty
logged_in_customer_id proceeds with no cookie.  The minted cookie is
named nd_auth, carries the signed payload with exp = now + 7 days in
milliseconds, and its attributes are HttpOnly, SameSite=Lax, Secure,
Path=/proxy and Max-Age equal to 7 days in seconds. -/
theorem requireProxyAuth_mint (hmac : Hmac) (jsonParse : JsonParse)
    (secret : String) (now : Int) (req : Request)
    (hsec : secret ≠ "")
    (hver : verifyShopifyProxy hmac secret req.query = true) :
    (requireProxyAuth hmac jsonParse secret now req =
      .proceed (if qStr req.query "shop" ≠ "" ∧
          qStr req.query "logged_in_customer_id" ≠ "" ∧
          qPathOrDefault req.query ≠ "" then
        some (setAuthCookie hmac secret now
          (qStr req.query "logged_in_customer_id") (qStr req.query "shop")
          (qPathOrDefault req.query))
      else none)) ∧
    (qStr req.query "logged_in_customer_id" = "" →
      requireProxyAuth hmac jsonParse secret now req = .proceed none) ∧
    (setAuthCookie hmac secret now (qStr req.query "logged_in_customer_id")
        (qStr req.query "shop") (qPathOrDefault req.query)).token =
      signSession hmac secret (.jobj
        [("customer_id", .jstr (qStr req.query "logged_in_customer_id")),
         ("shop", .jstr (qStr req.query "shop")),
         ("path_prefix", .jstr (qPathOrDefault req.query)),
         ("exp", .jnum (now + 7 * 24 * 60 * 60 * 1000))]) ∧
    (setAuthCookie hmac secret now (qStr req.query "logged_in_customer_id")
        (qStr req.query "shop") (qPathOrDefault req.query)).attrs =
      ["Path=/proxy", "HttpOnly", "SameSite=Lax", "Secure", "Max-Age=604800"] ∧
    (setAuthCookie hmac secret now (qStr req.query "logged_in_customer_id")
        (qStr req.query "shop") (qPathOrDefault req.query)).name = "nd_auth" := by
  have hmain : requireProxyAuth hmac jsonParse secret now req =
      .proceed (if qStr req.query "shop" ≠ "" ∧
          qStr req.query "logged_in_customer_id" ≠ "" ∧
          qPathOrDefault req.query ≠ "" then
        some (setAuthCookie hmac secret now
          (qStr req.query "logged_in_customer_id") (qStr req.query "shop")
          (qPathOrDefault req.query))
      else none) := by
    simp only [requireProxyAuth, if_neg hsec, hver, if_true, qPathOrDefault]
    rw [apply_ite AuthResult.proceed]
  refine ⟨hmain, ?_, rfl, rfl, rfl⟩
  intro hcid
  rw [hmain, if_neg (fun hand => hand.2.1 hcid)]

/-- C7 witness: a concretely signed request with customer id, shop and
path prefix present mints the cookie. -/
def demoBase : List (String × QVal) :=
  [("logged_in_customer_id", .qstr "c"),
   ("path_prefix", .qstr "/apps/nuggetdepot"), ("shop", .qstr "s")]

def demoQuery : List (String × QVal) :=
  demoBase ++ [("signature", .qstr (hmacLen "secret"
    (buildProxyMessage (demoBase.filter (fun kv => kv.1 != "signature")))))]

def demoReq : Request := { query := demoQuery, cookieHeader := "" }

theorem requireProxyAuth_mint_witness :
    requireProxyAuth hmacLen (jsonParseTable []) "secret" 0 demoReq =
      .proceed (if qStr demoReq.query "shop" ≠ "" ∧
          qStr demoReq.query "logged_in_customer_id" ≠ "" ∧
          qPathOrDefault demoReq.query ≠ "" then
        some (setAuthCookie hmacLen "secret" 0
          (qStr demoReq.query "logged_in_customer_id")
          (qStr demoReq.query "shop") (qPathOrDefault demoReq.query))
      else none) :=
  (requireProxyAuth_mint hmacLen (jsonParseTable []) "secret" 0 demoReq
    (by decide) (by rfl)).1

/-! A verified request with no path_prefix parameter at all: the code
defaults the prefix to /apps/nuggetdepot and mints anyway. -/

def demoBaseNoPath : List (String × QVal) :=
  [("logged_in_customer_id", .qstr "c"), ("shop", .qstr "s")]

def demoQueryNoPath : List (String × QVal) :=
  demoBaseNoPath ++ [("signature", .qstr (hmacLen "secret"
    (buildProxyMessage (demoBaseNoPath.filter (fun kv => kv.1 != "signature")))))]

def demoReqNoPath : Request := { query := demoQueryNoPath, cookieHeader := "" }

/-- C7 counterexample: a signature-verified request that carries a
non-empty customer id and shop but NO path_prefix query parameter
still gets a session cookie minted, with the defaulted path prefix
/apps/nuggetdepot in its payload — contradicting the claim that a
cookie is minted only if the request carries a non-empty path-prefix
query parameter. -/
theorem path_default_mints_counterexample :
    qLookup demoReqNoPath.query "path_prefix" = none ∧
    requireProxyAuth hmacLen (jsonParseTable []) "secret" 0 demoReqNoPath =
      .proceed (some (setAuthCookie hmacLen "secret" 0 "c" "s"
        "/apps/nuggetdepot")) :=
  ⟨by rfl, by rfl⟩

/-! Status codes of the proxy-mounted media handler (C2). -/

def emptyStore : Store :=
  { posts := [], media := [], likes := [], comments := [], nextPostId := 1 }

/-- C2 counterexample: a request whose proxy signature verifies, asking
for media of a post that has none, receives HTTP 404, not 200 — so the
media route is an externally-reachable failure path that does not
respond 200. -/
theorem proxy_media_404_counterexample :
    postMediaEndpoint hmacLen (jsonParseTable []) "secret" 0 (some emptyStore)
      demoReq "1" "0" = some ⟨404, "Not found"⟩ ∧ (404 : Nat) ≠ 200 :=
  ⟨by rfl, by decide⟩

/-- C2 (amended): every response of the proxy media endpoint carries
status 200 or status 404 with body "Not found" (no other status, and
nothing escapes except the cookie-parsing URIError modelled separately);
the authentication-rejection path and the unauthenticated-viewer path
specifically respond 200 with the failure described in the body; but a
missing or malformed media target responds 404. -/
theorem proxy_error_statuses :
    (∀ (hmac : Hmac) (jsonParse : JsonParse) (secret : String) (now : Int)
       (db : Option Store) (req : Request) (idP idxP : String)
       (resp : HttpResponse),
      postMediaEndpoint hmac jsonParse secret now db req idP idxP = some resp →
      resp.status = 200 ∨ (resp.status = 404 ∧ resp.body = "Not found")) ∧
    (∀ (hmac : Hmac) (jsonParse : JsonParse) (secret : String) (now : Int)
       (db : Option Store) (req : Request) (idP idxP : String),
      requireProxyAuth hmac jsonParse secret now req = .rejectedPage →
      postMediaEndpoint hmac jsonParse secret now db req idP idxP =
        some ⟨200, "Invalid proxy signature."⟩) ∧
    (∀ (hmac : Hmac) (jsonParse : JsonParse) (secret : String) (now : Int)
       (db : Option Store) (req : Request) (idP idxP : String) (c : Option SetCookie),
      requireProxyAuth hmac jsonParse secret now req = .proceed c →
      getViewerCustomerId hmac jsonParse secret now req = some "" →
      postMediaEndpoint hmac jsonParse secret now db req idP idxP =
        some ⟨200, "Not logged in"⟩) := by
  refine ⟨?_, ?_, ?_⟩
  · intro hmac jsonParse secret now db req idP idxP resp h
    match hra : requireProxyAuth hmac jsonParse secret now req with
    | .missingSecret =>
      simp only [postMediaEndpoint, hra] at h
      injection h with h2
      subst h2
      left; rfl
    | .rejectedPage =>
      simp only [postMediaEndpoint, hra] at h
      injection h with h2
      subst h2
      left; rfl
    | .thrown =>
      simp only [postMediaEndpoint, hra] at h
      exact Option.noConfusion h
    | .proceed c =>
      simp only [postMediaEndpoint, hra, postMediaHandler] at h
      match hv : getViewerCustomerId hmac jsonParse secret now req with
      | none =>
        simp only [hv] at h
        exact Option.noConfusion h
      | some viewer =>
        simp only [hv] at h
        by_cases hve : viewer = ""
        · rw [if_pos hve] at h
          injection h with h2
          subst h2
          left; rfl
        · rw [if_neg hve] at h
          match db with
          | none =>
            simp only [] at h
            injection h with h2
            subst h2
            left; rfl
          | some store =>
            simp only [] at h
            match hn1 : jsStrToNat idP with
            | none =>
              simp only [hn1] at h
              injection h with h2
              subst h2
              right; exact ⟨rfl, rfl⟩
            | some idv =>
              match hn2 : jsStrToNat idxP with
              | none =>
                simp only [hn1, hn2] at h
                injection h with h2
                subst h2
                right; exact ⟨rfl, rfl⟩
              | some idxv =>
                simp only [hn1, hn2] at h
                match hm : getPostMediaRow (some store) idv (Int.ofNat idxv) with
                | none =>
                  simp only [hm] at h
                  injection h with h2
                  subst h2
                  right; exact ⟨rfl, rfl⟩
                | some m =>
                  simp only [hm] at h
                  injection h with h2
                  subst h2
                  left; rfl
  · intro hmac jsonParse secret now db req idP idxP hrej
    simp only [postMediaEndpoint, hrej]
  · intro hmac jsonParse secret now db req idP idxP c hproc hview
    simp only [postMediaEndpoint, hproc, postMediaHandler, hview]
    rfl

/-- C2 witness: the status classification applied to the concrete
404-producing request. -/
theorem proxy_error_statuses_witness :
    (404 : Nat) = 200 ∨ ((404 : Nat) = 404 ∧
      ("Not found" : String) = "Not found") :=
  proxy_error_statuses.1 hmacLen (jsonParseTable []) "secret" 0 (some emptyStore)
    demoReq "1" "0" ⟨404, "Not found"⟩ (by rfl)

/-! parseCookies and malformed percent escapes (C10). -/

theorem mem_jsSplitChar_subset (sep : Char) : ∀ (l : List Char),
    ∀ part ∈ jsSplitChar sep l, ∀ c ∈ part, c ∈ l := by
  intro l
  induction l with
  | nil =>
    intro part hp c hc
    simp only [jsSplitChar, List.mem_singleton] at hp
    subst hp
    simp at hc
  | cons x xs ih =>
    intro part hp c hc
    simp only [jsSplitChar] at hp
    by_cases hx : x = sep
    · rw [if_pos hx] at hp
      rcases List.mem_cons.mp hp with rfl | hp2
      · simp at hc
      · exact List.mem_cons_of_mem x (ih part hp2 c hc)
    · rw [if_neg hx] at hp
      match hsp : jsSplitChar sep xs with
      | [] => exact absurd hsp (jsSplitChar_ne_nil sep xs)
      | hh :: tt =>
        rw [hsp] at hp
        rcases List.mem_cons.mp hp with rfl | hp2
        · rcases List.mem_cons.mp hc with rfl | hc2
          · exact List.mem_cons_self c xs
          · exact List.mem_cons_of_mem x
              (ih hh (hsp ▸ List.mem_cons_self hh tt) c hc2)
        · exact List.mem_cons_of_mem x
            (ih part (hsp ▸ List.mem_cons_of_mem hh hp2) c hc)

theorem splitFirstEq_subset : ∀ (l k v : List Char),
    splitFirstEq l = some (k, v) → (∀ c ∈ k, c ∈ l) ∧ (∀ c ∈ v, c ∈ l) := by
  intro l
  induction l with
  | nil => intro k v h; simp [splitFirstEq] at h
  | cons x xs ih =>
    intro k v h
    simp only [splitFirstEq] at h
    by_cases hx : x = '='
    · rw [if_pos hx] at h
      simp only [Option.some.injEq, Prod.mk.injEq] at h
      obtain ⟨hk, hv⟩ := h
      subst hk
      subst hv
      exact ⟨fun c hc => absurd hc (List.not_mem_nil c),
        fun c hc => List.mem_cons_of_mem x hc⟩
    · rw [if_neg hx] at h
      match hsp : splitFirstEq xs with
      | none => rw [hsp] at h; simp at h
      | some (k2, v2) =>
        rw [hsp] at h
        simp only [Option.map_some', Option.some.injEq, Prod.mk.injEq] at h
        obtain ⟨hk, hv⟩ := h
        subst hk
        subst hv
        have hsub := ih k2 v2 hsp
        constructor
        · intro c hc
          rcases List.mem_cons.mp hc with rfl | hc2
          · exact List.mem_cons_self c xs
          · exact List.mem_cons_of_mem x (hsub.1 c hc2)
        · intro c hc
          exact List.mem_cons_of_mem x (hsub.2 c hc)

theorem jsTrim_subset (s : String) : ∀ c ∈ (jsTrim s).data, c ∈ s.data := by
  intro c hc
  simp only [jsTrim] at hc
  rw [List.mem_reverse] at hc
  have h1 : c ∈ (s.data.dropWhile isJsWs).reverse :=
    (List.dropWhile_sublist isJsWs).subset hc
  rw [List.mem_reverse] at h1
  exact (List.dropWhile_sublist isJsWs).subset h1

theorem pctTokens_no_pct : ∀ (l : List Char), '%' ∉ l →
    pctTokens l = some (l.map PctTok.chr) := by
  intro l
  induction l with
  | nil => intro; rfl
  | cons x xs ih =>
    intro h
    have hx : x ≠ '%' := fun hc => h (hc ▸ List.mem_cons_self x xs)
    have hxs : '%' ∉ xs := fun hm => h (List.mem_cons_of_mem x hm)
    rw [pctTokens.eq_def]
    simp only []
    rw [if_neg hx, ih hxs]
    rfl

theorem utf8Tokens_chrs : ∀ (l : List Char),
    utf8Tokens (l.map PctTok.chr) = some l := by
  intro l
  induction l with
  | nil => rfl
  | cons x xs ih =>
    show (utf8Tokens (xs.map PctTok.chr)).map (fun cs => x :: cs) = _
    rw [ih]
    rfl

theorem decodeUriComp_no_pct (s : String) (h : '%' ∉ s.data) :
    decodeUriComp s = some s := by
  simp only [decodeUriComp, pctTokens_no_pct s.data h, utf8Tokens_chrs,
    Option.map_some']

theorem parseCookiePart_no_pct (part : String) (h : '%' ∉ part.data) :
    (parseCookiePart part).isSome = true := by
  rw [parseCookiePart]
  match hsp : splitFirstEq part.data with
  | none => rfl
  | some (kC, vC) =>
    simp only []
    by_cases hk : jsTrim (String.mk kC) = ""
    · rw [if_pos hk]
      rfl
    · rw [if_neg hk]
      have hvsub := (splitFirstEq_subset part.data kC vC hsp).2
      have hvnp : '%' ∉ (jsTrim (String.mk vC)).data := fun hc =>
        h (hvsub '%' (jsTrim_subset (String.mk vC) '%' hc))
      rw [decodeUriComp_no_pct _ hvnp]
      rfl

theorem collectCookies_no_pct : ∀ (parts : List String),
    (∀ part ∈ parts, '%' ∉ part.data) →
    (collectCookies parts).isSome = true := by
  intro parts
  induction parts with
  | nil => intro; rfl
  | cons p ps ih =>
    intro h
    have hp := parseCookiePart_no_pct p (h p (List.mem_cons_self p ps))
    have hps := ih (fun x hx => h x (List.mem_cons_of_mem p hx))
    rw [collectCookies]
    match hpp : parseCookiePart p with
    | none => rw [hpp] at hp; simp at hp
    | some none => exact hps
    | some (some kv) =>
      simp only []
      match hcc : collectCookies ps with
      | none => rw [hcc] at hps; simp at hps
      | some rest => simp [hcc]

/-- C10 counterexample: the Cookie header "a=%" carries a malformed
percent escape; decodeURIComponent throws URIError, parseCookies
propagates it (modelled as none), and the session-bridge fallback path
of requireProxyAuth aborts instead of returning a response. -/
theorem parseCookies_throw_counterexample :
    parseCookies "a=%" = none ∧
    requireProxyAuth hmacLen (jsonParseTable []) "secret" 0
      { query := [], cookieHeader := "a=%" } = .thrown :=
  ⟨by rfl, by rfl⟩

/-- C10 (amended): parseCookies returns a cookie map without throwing
for every Cookie header whose values decode cleanly — in particular any
header containing no percent sign — but a malformed percent escape such
as "a=%" makes decodeURIComponent throw and aborts the request. -/
theorem parseCookies_no_pct_header (header : String) (h : '%' ∉ header.data) :
    (parseCookies header).isSome = true := by
  rw [parseCookies]
  apply collectCookies_no_pct
  intro part hpart hc
  simp only [jsSplit] at hpart
  obtain ⟨pl, hpl, hplm⟩ := List.mem_map.mp hpart
  have : ('%' : Char) ∈ pl := by
    rw [← hplm] at hc
    exact hc
  exact h (mem_jsSplitChar_subset ';' header.data pl hpl '%' this)

/-- C10 witness: a benign two-cookie header parses successfully. -/
theorem parseCookies_no_pct_header_witness :
    (parseCookies "nd_auth=tok; a=b").isSome = true :=
  parseCookies_no_pct_header "nd_auth=tok; a=b" (by decide)

end NuggetDepot
